import Mathlib

/-!
Verification of the cross-source record reconciliation logic of the
ByggKonsult planning-data scripts: the record key generators
(`generate_plan_key` in `integrated_planning_system.py`,
`generate_oslo_key` in `oslo_planning_system.py`), the merge resolvers
(`merge_plan_data`, `merge_oslo_data`), the cross-reference drivers
(`cross_reference_data`, `cross_reference_oslo_data`), the coverage
assessment (`assess_oslo_coverage`) and the content classifier
(`analyze_oslo_content`).

Modelling conventions:
* Python values occurring in these records are strings, integers, `None`
  and flat lists of such atoms; they are embedded as `PyAtom` / `PyVal`.
  Nested containers never occur in the records these functions build.
* A Python dict is embedded as an insertion-ordered association list
  (`PyDict`); assignment to a present key keeps its position, assignment
  to a fresh key appends, exactly as for Python 3.7+ dicts.
* `str.lower` is embedded ASCII-only (`pyLower`); the inputs used in
  theorems below stay within ASCII.
* Functions that can raise (`.lower()` on a non-string, `'_'.join` over a
  non-string element) return `Option`, `Option.none` marking the raise.
  A few branches of the merge resolvers that would raise `TypeError` on
  value shapes this system never produces (for example `list.extend`
  with an integer argument) are embedded as leaving the dict unchanged;
  every theorem below either avoids those shapes or excludes them by
  hypothesis.
* Python's run-to-run randomized `hash` is embedded as an explicit
  parameter (`HashFns`), `hs` standing for `hash` on the string actually
  hashed and `hd` for `hash(str(item))` on a record.
-/

/-- Atomic Python values appearing in planning records. -/
inductive PyAtom where
  | anone
  | str (s : String)
  | int (n : Int)
deriving DecidableEq

/-- Python values appearing in planning records: atoms and flat lists of atoms. -/
inductive PyVal where
  | atom (a : PyAtom)
  | list (l : List PyAtom)
deriving DecidableEq

/-- Shorthand for a string value. -/
def pvs (s : String) : PyVal := PyVal.atom (PyAtom.str s)

/-- Shorthand for the Python `None` value. -/
def pvnone : PyVal := PyVal.atom PyAtom.anone

/-- Python truthiness of an atom. -/
def PyAtom.truthy : PyAtom → Bool
  | .anone => false
  | .str s => !(s == "")
  | .int n => !(n == 0)

/-- Python truthiness of a value. -/
def PyVal.truthy : PyVal → Bool
  | .atom a => a.truthy
  | .list l => !l.isEmpty

/-- A Python dict, as an insertion-ordered association list. -/
abbrev PyDict := List (String × PyVal)

/-- Dict lookup (`d.get(k)` / `d[k]`), first matching key. -/
def pyGet : PyDict → String → Option PyVal
  | [], _ => Option.none
  | (k₁, v₁) :: t, k => if k₁ = k then some v₁ else pyGet t k

/-- Dict lookup with default (`d.get(k, dflt)`). -/
def pyGetD (d : PyDict) (k : String) (dflt : PyVal) : PyVal :=
  (pyGet d k).getD dflt

/-- Key membership (`k in d`). -/
def pyHasKey (d : PyDict) (k : String) : Bool :=
  (pyGet d k).isSome

/-- Dict assignment (`d[k] = v`): replaces the value in place if the key is
present, appends the pair otherwise, as a Python dict does. -/
def pySet : PyDict → String → PyVal → PyDict
  | [], k, v => [(k, v)]
  | (k₁, v₁) :: t, k, v => if k₁ = k then (k, v) :: t else (k₁, v₁) :: pySet t k v

/-- Lookup expecting an atom, with default when the key is absent.  In the
records this system builds, `source` fields are always strings. -/
def pyGetAtomD (d : PyDict) (k : String) (dflt : PyAtom) : PyAtom :=
  match pyGet d k with
  | some (PyVal.atom a) => a
  | _ => dflt

/-- A key list without duplicates: what makes an association list an actual
Python dict (Python dicts cannot repeat keys). -/
def IsDict (d : PyDict) : Prop := (d.map Prod.fst).Nodup

instance (d : PyDict) : Decidable (IsDict d) := by
  unfold IsDict; infer_instance

/-- ASCII lowercasing of one character, as `str.lower` does on ASCII. -/
def pyCharLower (c : Char) : Char :=
  if 'A' ≤ c && c ≤ 'Z' then Char.ofNat (c.toNat + 32) else c

/-- ASCII lowercasing of a string (`str.lower`, restricted to ASCII input). -/
def pyLower (s : String) : String := String.mk (s.data.map pyCharLower)

/-- The `.lower()` call on a record value: succeeds only on strings,
`Option.none` embeds the `AttributeError` raised on anything else. -/
def pyLowerVal : PyVal → Option String
  | PyVal.atom (PyAtom.str s) => some (pyLower s)
  | _ => Option.none

/-- Whether `pat` occurs at the start of `hay`. -/
def charsStartWith : List Char → List Char → Bool
  | [], _ => true
  | _ :: _, [] => false
  | p :: ps, h :: hs => p == h && charsStartWith ps hs

/-- Whether `pat` occurs contiguously inside `hay`. -/
def charsContain : List Char → List Char → Bool
  | [], pat => charsStartWith pat []
  | c :: t, pat => charsStartWith pat (c :: t) || charsContain t pat

/-- Python's substring test `pat in hay` on strings. -/
def pyInStr (hay pat : String) : Bool := charsContain hay.data pat.data

/-- A `\w` word character, as in `re.findall(r'\w+', ...)` (ASCII range). -/
def isWordChar (c : Char) : Bool := c.isAlpha || c.isDigit || c == '_'

/-- Accumulating scanner behind `wordTokens`. -/
def wordTokensAux : List Char → List Char → List String
  | [], acc => if acc.isEmpty then [] else [String.mk acc.reverse]
  | c :: cs, acc =>
    if isWordChar c then wordTokensAux cs (c :: acc)
    else if acc.isEmpty then wordTokensAux cs []
    else String.mk acc.reverse :: wordTokensAux cs []

/-- The maximal runs of word characters: `re.findall(r'\w+', s)`. -/
def wordTokens (s : String) : List String := wordTokensAux s.data []

/-- Python's `sep.join(parts)`. -/
def pyJoin (sep : String) : List String → String
  | [] => ""
  | [x] => x
  | x :: xs => x ++ sep ++ pyJoin sep xs

/-- Python `repr` of an atom, as it appears inside `str` of a list. -/
def atomRepr : PyAtom → String
  | .anone => "None"
  | .str s => "'" ++ s ++ "'"
  | .int n => toString n

/-- Python `str()` of a value, as used by an f-string interpolation. -/
def pyStrVal : PyVal → String
  | PyVal.atom PyAtom.anone => "None"
  | PyVal.atom (PyAtom.str s) => s
  | PyVal.atom (PyAtom.int n) => toString n
  | PyVal.list l => "[" ++ pyJoin ", " (l.map atomRepr) ++ "]"

/-- The run's string-hash function: `hs` embeds `hash` on the hashed string,
`hd` embeds `hash(str(item))` on a record.  Python randomizes the string hash
per process, so a fresh run may come with different `HashFns`. -/
structure HashFns where
  hs : String → Int
  hd : PyDict → Int

/-- The `'områder'` keyword list of `OsloPlanningSystem.oslo_keywords`. -/
def osloOmrader : List String :=
  ["sentrum", "grünerløkka", "frogner", "gamle oslo",
   "st. hanshaugen", "sagene", "ullern", "vestre aker",
   "nordre aker", "bjerke", "grorud", "stovner",
   "alna", "østensjø", "nordstrand", "søndre nordstrand"]

/-- The `'oslo_spesifikk'` keyword list of `OsloPlanningSystem.oslo_keywords`. -/
def osloSpesifikk : List String :=
  ["oslo kommune", "oslo s", "bjørvika", "barcode",
   "tjuvholmen", "aker brygge", "vulkan", "grønland",
   "tøyen", "kampen", "vålerenga", "majorstuen"]

/-- The `'planterminologi'` keyword list of `OsloPlanningSystem.oslo_keywords`. -/
def planterminologi : List String :=
  ["oslo_kommuneplan", "oslo_regulering", "pbe_oslo",
   "plan_og_bygningsetaten", "oslo_planstrategi"]

/-- `IntegratedPlanningSystem.generate_plan_key`:
municipality (defaulted to `'unknown'`) lowercased, then either the
`plan_id` when truthy or up to the first three word tokens of the lowercased
title, joined with `'_'`.  `Option.none` embeds a raise (`.lower()` on a
non-string, or joining a non-string `plan_id`). -/
def generate_plan_key (plan : PyDict) : Option String :=
  match pyLowerVal (pyGetD plan "municipality" (pvs "unknown")),
        pyLowerVal (pyGetD plan "title" (pvs "")) with
  | some municipality, some title =>
    let planId := pyGetD plan "plan_id" (pvs "")
    if planId.truthy then
      match planId with
      | PyVal.atom (PyAtom.str pid) => some (pyJoin "_" [municipality, pid])
      | _ => Option.none
    else
      some (pyJoin "_" (municipality :: (wordTokens title).take 3))
  | _, _ => Option.none

/-- `OsloPlanningSystem.generate_oslo_key`:
`'oslo_' + plan_id` when `plan_id` is truthy; otherwise, for a non-empty
lowercased title, `'oslo_' + area + '_' + hash(title) % 1000` for the first
`osloOmrader` entry contained in the title; otherwise
`'oslo_general_' + hash(str(item)) % 1000`.  The municipality field is never
consulted. -/
def generate_oslo_key (h : HashFns) (item : PyDict) : Option String :=
  match pyLowerVal (pyGetD item "title" (pvs "")) with
  | some title =>
    let planId := pyGetD item "plan_id" (pvs "")
    if planId.truthy then
      some ("oslo_" ++ pyStrVal planId)
    else if title ≠ "" then
      match osloOmrader.find? (fun area => pyInStr title area) with
      | some area => some ("oslo_" ++ area ++ "_" ++ toString (h.hs title % 1000))
      | Option.none => some ("oslo_general_" ++ toString (h.hd item % 1000))
    else
      some ("oslo_general_" ++ toString (h.hd item % 1000))
  | Option.none => Option.none

example : generate_plan_key [("municipality", pvs "Oslo"), ("title", pvs "Reguleringsplan Frogner Park")]
    = some "oslo_reguleringsplan_frogner_park" := by decide

example : generate_plan_key [("municipality", pvs "Oslo"), ("plan_id", pvs "OSL-001")]
    = some "oslo_OSL-001" := by decide

example : generate_plan_key [("municipality", pvs "")] = some "" := by decide

example : generate_oslo_key ⟨fun _ => 7, fun _ => 3⟩ [("title", pvs "Plan sentrum vest")]
    = some "oslo_sentrum_7" := by decide

example : generate_oslo_key ⟨fun _ => 7, fun _ => 3⟩ [("x", PyVal.atom (PyAtom.int 1))]
    = some "oslo_general_3" := by decide

/-- Membership test `v in l` where `l` is the retrieved `sources` value.
Defined only for list receivers, as in `new.get('source') not in
merged['sources']`; membership on a non-list receiver (which would raise or
do a substring test in Python) never occurs in this system's records. -/
def pyMemList (v : PyVal) (l : PyVal) : Bool :=
  match l, v with
  | PyVal.list xs, PyVal.atom a => xs.contains a
  | PyVal.list _, PyVal.list _ => false
  | PyVal.atom _, _ => false

/-- `l.append(a)` on the retrieved sources list; `.append` on a non-list
would raise `AttributeError` and is embedded as the identity (the sources
slot is always a list in the records this system builds). -/
def pyAppendAtom (l : PyVal) (a : PyAtom) : PyVal :=
  match l with
  | PyVal.list xs => PyVal.list (xs ++ [a])
  | v => v

/-- The `sources` bookkeeping prologue of `merge_plan_data`: start from a
copy of `existing`, seed `merged['sources']` with `existing.get('source',
'unknown')` when absent, then append `new.get('source', 'unknown')` unless
`new.get('source')` (no default — `None` when absent) is already a member. -/
def planSourcesStep (existing new : PyDict) : PyDict :=
  let merged := existing
  let merged :=
    if pyHasKey merged "sources" then merged
    else pySet merged "sources" (PyVal.list [pyGetAtomD existing "source" (PyAtom.str "unknown")])
  if pyMemList (pyGetD new "source" pvnone) (pyGetD merged "sources" pvnone) then merged
  else pySet merged "sources"
    (pyAppendAtom (pyGetD merged "sources" pvnone) (pyGetAtomD new "source" (PyAtom.str "unknown")))

/-- One iteration of `merge_plan_data`'s loop `for key, value in
new.items()`: copy `value` when the key is not `'source'`, the value is
truthy, and the key is absent or falsy on `merged`. -/
def mergeStep (merged : PyDict) (kv : String × PyVal) : PyDict :=
  if kv.1 ≠ "source" ∧ kv.2.truthy = true ∧ (pyGetD merged kv.1 pvnone).truthy = false
  then pySet merged kv.1 kv.2
  else merged

/-- `IntegratedPlanningSystem.merge_plan_data`: sources bookkeeping, then
first-non-empty-wins for every other field of `new`. -/
def merge_plan_data (existing new : PyDict) : PyDict :=
  new.foldl mergeStep (planSourcesStep existing new)

/-- The `oslo_sources` bookkeeping prologue of `merge_oslo_data`, identical
to `planSourcesStep` but on the `oslo_sources` key. -/
def osloSourcesStep (existing new : PyDict) : PyDict :=
  let merged := existing
  let merged :=
    if pyHasKey merged "oslo_sources" then merged
    else pySet merged "oslo_sources" (PyVal.list [pyGetAtomD existing "source" (PyAtom.str "unknown")])
  if pyMemList (pyGetD new "source" pvnone) (pyGetD merged "oslo_sources" pvnone) then merged
  else pySet merged "oslo_sources"
    (pyAppendAtom (pyGetD merged "oslo_sources" pvnone) (pyGetAtomD new "source" (PyAtom.str "unknown")))

/-- One field of `merge_oslo_data`'s loop over
`['oslo_areas', 'oslo_terms', 'oslo_relevance_score']`: when the field is
present and truthy on `new` — copy when absent on `merged`, extend when
`merged[field]` is a list (`list.extend`, which iterates a string argument
character by character), take the max when `merged[field]` is a number.
The `TypeError` Python would raise on extending a list with a number is
embedded as the identity; these shapes never occur in this system. -/
def osloMergeField (new merged : PyDict) (field : String) : PyDict :=
  match pyGet new field with
  | Option.none => merged
  | some v =>
    if v.truthy then
      match pyGet merged field with
      | Option.none => pySet merged field v
      | some (PyVal.list l) =>
        match v with
        | PyVal.list m => pySet merged field (PyVal.list (l ++ m))
        | PyVal.atom (PyAtom.str s) =>
            pySet merged field (PyVal.list (l ++ s.data.map (fun c => PyAtom.str (String.mk [c]))))
        | PyVal.atom _ => merged
      | some (PyVal.atom (PyAtom.int n)) =>
        match v with
        | PyVal.atom (PyAtom.int m) => pySet merged field (PyVal.atom (PyAtom.int (max n m)))
        | _ => merged
      | some (PyVal.atom _) => merged
    else merged

/-- `OsloPlanningSystem.merge_oslo_data`: `oslo_sources` bookkeeping, then
the merge of the three Oslo-specific fields; every other field of `new` is
ignored. -/
def merge_oslo_data (existing new : PyDict) : PyDict :=
  osloMergeField new
    (osloMergeField new
      (osloMergeField new (osloSourcesStep existing new) "oslo_areas")
      "oslo_terms")
    "oslo_relevance_score"

example : merge_plan_data [("docs", PyVal.list [PyAtom.str "a"])] [("docs", PyVal.list [PyAtom.str "b"])]
    = [("docs", PyVal.list [PyAtom.str "a"]),
       ("sources", PyVal.list [PyAtom.str "unknown", PyAtom.str "unknown"])] := by decide

example : merge_oslo_data [("oslo_areas", PyVal.list [PyAtom.str "a"])] [("oslo_areas", PyVal.list [PyAtom.str "b"])]
    = [("oslo_areas", PyVal.list [PyAtom.str "a", PyAtom.str "b"]),
       ("oslo_sources", PyVal.list [PyAtom.str "unknown", PyAtom.str "unknown"])] := by decide

example :
    merge_oslo_data [("source", pvs "s"), ("oslo_areas", PyVal.list [PyAtom.str "sentrum"])]
      [("source", pvs "s"), ("oslo_areas", PyVal.list [PyAtom.str "sentrum"])]
    = [("source", pvs "s"),
       ("oslo_areas", PyVal.list [PyAtom.str "sentrum", PyAtom.str "sentrum"]),
       ("oslo_sources", PyVal.list [PyAtom.str "s"])] := by decide

/-- Folding one raw record into the accumulating unified dict: reassign the
merged record when its key is present (keeping the key's position, as a
Python dict does), append otherwise. -/
def assocInsertMerge (mergef : PyDict → PyDict → PyDict)
    (acc : List (String × PyDict)) (k : String) (item : PyDict) :
    List (String × PyDict) :=
  if acc.any (fun p => p.1 = k) then
    acc.map (fun p => if p.1 = k then (k, mergef p.2 item) else p)
  else acc ++ [(k, item)]

/-- Membership test `v in hay` as used by `find_matching_plans`
(`pdf_plan_id in plan.get('plan_id', '')`): substring test on strings,
`Option.none` embeds the `TypeError` Python raises on other shapes. -/
def pyInVal (pat hay : PyVal) : Option Bool :=
  match pat, hay with
  | PyVal.atom (PyAtom.str p), PyVal.atom (PyAtom.str h) => some (pyInStr h p)
  | _, PyVal.atom (PyAtom.str _) => Option.none
  | PyVal.atom a, PyVal.list l => some (l.contains a)
  | PyVal.list _, PyVal.list _ => some false
  | _, _ => Option.none

/-- The per-plan test inside `find_matching_plans`: municipalities contain
one another (either way) and the pdf's `plan_id` is truthy and occurs inside
the plan's `plan_id` or (short-circuit) its `title`. -/
def planMatches (pdfMuni : String) (pdfPlanId : PyVal) (plan : PyDict) : Option Bool := do
  let planMuni ← pyLowerVal (pyGetD plan "municipality" (pvs ""))
  if (pyInStr planMuni pdfMuni || pyInStr pdfMuni planMuni) && pdfPlanId.truthy then
    let b₁ ← pyInVal pdfPlanId (pyGetD plan "plan_id" (pvs ""))
    if b₁ then pure true else pyInVal pdfPlanId (pyGetD plan "title" (pvs ""))
  else
    pure false

/-- `IntegratedPlanningSystem.find_matching_plans`: the keys of the unified
plans, in dict order, whose record matches the pdf analysis. -/
def find_matching_plans (pdf : PyDict) (unified : List (String × PyDict)) :
    Option (List String) := do
  let pdfMuni ← pyLowerVal (pyGetD pdf "municipality" (pvs ""))
  let pdfPlanId := pyGetD pdf "plan_id" (pvs "")
  unified.foldlM (fun acc entry => do
    let b ← planMatches pdfMuni pdfPlanId entry.2
    pure (if b then acc ++ [entry.1] else acc)) []

/-- Attaching one pdf analysis: `unified[k]['pdf_analysis'] = pdf` for every
matching key.  The injected dict is carried in the second component of the
unified pair (`Option PyDict`), standing for the record's `pdf_analysis`
key. -/
def applyPdf (unified : List (String × (PyDict × Option PyDict))) (pdf : PyDict) :
    Option (List (String × (PyDict × Option PyDict))) := do
  let matchKeys ← find_matching_plans pdf (unified.map (fun p => (p.1, p.2.1)))
  pure (unified.map (fun p => if p.1 ∈ matchKeys then (p.1, (p.2.1, some pdf)) else p))

/-- `IntegratedPlanningSystem.get_sources_summary`: counts of regulatory
plans tagged `geonorge` and `oslo_origo`, and of pdf analyses. -/
def get_sources_summary (plans pdfs : List PyDict) : Nat × Nat × Nat :=
  ((plans.filter (fun p => pyGet p "source" = some (pvs "geonorge"))).length,
   (plans.filter (fun p => pyGet p "source" = some (pvs "oslo_origo"))).length,
   pdfs.length)

/-- The result dict of `cross_reference_data`.  A unified plan is the pair of
its merged fields and its optional attached `pdf_analysis`. -/
structure CrossRefResult where
  unified_plans : List (PyDict × Option PyDict)
  cross_references : Nat
  sources_summary : Nat × Nat × Nat
deriving DecidableEq

/-- `IntegratedPlanningSystem.cross_reference_data`: fold the regulatory
plans into a unified dict keyed by `generate_plan_key` and merged by
`merge_plan_data`, then attach each pdf analysis to every plan
`find_matching_plans` selects.  The pass never calls `hash`; the `HashFns`
argument records exactly that. -/
def cross_reference_data (h : HashFns) (regulatory_plans pdf_analyses : List PyDict) :
    Option CrossRefResult :=
  let _ := h
  do
  let base ← regulatory_plans.foldlM (fun acc plan => do
      let k ← generate_plan_key plan
      pure (assocInsertMerge merge_plan_data acc k plan)) []
  let unified ← pdf_analyses.foldlM applyPdf
      (base.map (fun p => (p.1, (p.2, (Option.none : Option PyDict)))))
  pure { unified_plans := unified.map Prod.snd
         cross_references := (unified.filter (fun p => p.2.2.isSome)).length
         sources_summary := get_sources_summary regulatory_plans pdf_analyses }

/-- The set of area atoms accumulated by `assess_oslo_coverage`'s loop
(`covered_areas.update(item['oslo_areas'])` for items carrying the key).
`set.update` iterates its argument: the elements for a list value, the
characters for a string value; the `TypeError` a non-iterable value would
raise is embedded as a no-op (`oslo_areas` always holds a list here). -/
def collectAreas (items : List PyDict) : Finset PyAtom :=
  items.foldl (fun acc item =>
    match pyGet item "oslo_areas" with
    | some (PyVal.list l) => acc ∪ l.toFinset
    | some (PyVal.atom (PyAtom.str s)) =>
        acc ∪ (s.data.map (fun c => PyAtom.str (String.mk [c]))).toFinset
    | _ => acc) ∅

/-- The coverage dict returned by `assess_oslo_coverage`.  Python computes
the percentage with float division; on this data (`covered/16*100`) the
float result is exact, so it is embedded as the rational it denotes. -/
structure OsloCoverage where
  covered_oslo_areas : Nat
  total_oslo_areas : Nat
  coverage_percentage : Rat
  missing_areas : List String
deriving DecidableEq

/-- `OsloPlanningSystem.assess_oslo_coverage` over the unified items. -/
def assess_oslo_coverage (items : List PyDict) : OsloCoverage :=
  let covered := collectAreas items
  { covered_oslo_areas := covered.card
    total_oslo_areas := osloOmrader.length
    coverage_percentage := (covered.card : Rat) / (osloOmrader.length : Rat) * 100
    missing_areas := osloOmrader.filter (fun a => !(decide (PyAtom.str a ∈ covered))) }

/-- The result dict of `cross_reference_oslo_data`. -/
structure OsloCrossRefResult where
  oslo_unified_data : List PyDict
  total_oslo_items : Nat
  source_breakdown : Nat × Nat × Nat × Nat
deriving DecidableEq

/-- `OsloPlanningSystem.get_oslo_source_summary`. -/
def get_oslo_source_summary (origo reg pdfs : List PyDict) : Nat × Nat × Nat × Nat :=
  (origo.length, reg.length, pdfs.length, origo.length + reg.length + pdfs.length)

/-- `OsloPlanningSystem.cross_reference_oslo_data`: concatenate the three
Oslo batches, fold them into a unified dict keyed by `generate_oslo_key`
(which calls the run's `hash`) and merged by `merge_oslo_data`.  The
coverage dict the driver also returns is `assess_oslo_coverage` of
`oslo_unified_data` and is kept as a separate definition. -/
def cross_reference_oslo_data (h : HashFns) (origo reg pdfs : List PyDict) :
    Option OsloCrossRefResult := do
  let unified ← (origo ++ reg ++ pdfs).foldlM (fun acc item => do
      let k ← generate_oslo_key h item
      pure (assocInsertMerge merge_oslo_data acc k item)) []
  pure { oslo_unified_data := unified.map Prod.snd
         total_oslo_items := unified.length
         source_breakdown := get_oslo_source_summary origo reg pdfs }

/-- The areas `analyze_oslo_content` collects into `found_areas`: the
`osloOmrader` entries contained in the lowercased text, in list order. -/
def analyzeFoundAreas (text : String) : List String :=
  osloOmrader.filter (fun area => pyInStr (pyLower text) area)

/-- The terms `analyze_oslo_content` collects into `found_oslo_terms`:
matching `osloSpesifikk` entries, then matching `planterminologi` entries. -/
def analyzeFoundTerms (text : String) : List String :=
  osloSpesifikk.filter (fun t => pyInStr (pyLower text) t)
    ++ planterminologi.filter (fun t => pyInStr (pyLower text) t)

/-- The `oslo_mentions` score of `analyze_oslo_content`: 2 per matched area,
1 per matched Oslo-specific term, 3 per matched planning term. -/
def osloMentions (text : String) : Nat :=
  2 * (analyzeFoundAreas text).length
    + (osloSpesifikk.filter (fun t => pyInStr (pyLower text) t)).length
    + 3 * (planterminologi.filter (fun t => pyInStr (pyLower text) t)).length

/-- The non-regex fields of the dict `analyze_oslo_content` returns.  The
`plan_id` and `plan_type` entries (regex extraction over the raw text) are
orthogonal to the claims below and are not embedded. -/
def analyze_oslo_content_core (text : String) : PyDict :=
  [("oslo_relevance_score", PyVal.atom (PyAtom.int (osloMentions text))),
   ("oslo_areas", PyVal.list ((analyzeFoundAreas text).map PyAtom.str)),
   ("oslo_terms", PyVal.list ((analyzeFoundTerms text).map PyAtom.str)),
   ("oslo_mentions", PyVal.atom (PyAtom.int (osloMentions text)))]

/-! Heap embedding of `merge_oslo_data`, for the aliasing behaviour: Python's
`dict.copy()` is shallow, so the copied dict shares its list objects with
`existing`, and `merged[field].extend(...)` mutates the shared object.  List
objects live in an explicit store; a record holds references to them. -/

/-- A heap value: an immutable atom, or a reference to a list object. -/
inductive HVal where
  | atom (a : PyAtom)
  | ref (r : Nat)
deriving DecidableEq

/-- A record whose list-valued fields are references into the store. -/
abbrev HDict := List (String × HVal)

/-- The store of list objects, indexed by reference. -/
abbrev Store := List (List PyAtom)

/-- Dereference a list object (out-of-range never occurs for the records
built here). -/
def storeGet (st : Store) (r : Nat) : List PyAtom := (st[r]?).getD []

/-- Overwrite a list object in place. -/
def storeSet (st : Store) (r : Nat) (l : List PyAtom) : Store := st.set r l

/-- Heap-record lookup, as `pyGet`. -/
def hGet : HDict → String → Option HVal
  | [], _ => Option.none
  | (k₁, v₁) :: t, k => if k₁ = k then some v₁ else hGet t k

/-- Heap-record lookup with default. -/
def hGetD (d : HDict) (k : String) (dflt : HVal) : HVal := (hGet d k).getD dflt

/-- Heap-record key membership. -/
def hHasKey (d : HDict) (k : String) : Bool := (hGet d k).isSome

/-- Heap-record assignment, as `pySet`. -/
def hSet : HDict → String → HVal → HDict
  | [], k, v => [(k, v)]
  | (k₁, v₁) :: t, k, v => if k₁ = k then (k, v) :: t else (k₁, v₁) :: hSet t k v

/-- Lookup expecting an atom (the `source` tag), defaulted when absent. -/
def hGetAtomD (d : HDict) (k : String) (dflt : PyAtom) : PyAtom :=
  match hGet d k with
  | some (HVal.atom a) => a
  | _ => dflt

/-- Python truthiness of a heap value under a store. -/
def hTruthy (st : Store) : HVal → Bool
  | HVal.atom a => a.truthy
  | HVal.ref r => !(storeGet st r).isEmpty

/-- The `oslo_sources` prologue of `merge_oslo_data` on the heap: a missing
`oslo_sources` slot allocates a fresh one-element list object; the append
mutates the referenced list object in the store. -/
def hOsloSourcesStep (st : Store) (existing new : HDict) : Store × HDict :=
  let stm :=
    if hHasKey existing "oslo_sources" then (st, existing)
    else (st ++ [[hGetAtomD existing "source" (PyAtom.str "unknown")]],
          hSet existing "oslo_sources" (HVal.ref st.length))
  let st₁ := stm.1
  let merged := stm.2
  match hGetD merged "oslo_sources" (HVal.atom PyAtom.anone) with
  | HVal.ref r =>
    let isMem :=
      match hGetD new "source" (HVal.atom PyAtom.anone) with
      | HVal.atom a => (storeGet st₁ r).contains a
      | HVal.ref _ => false
    if isMem then (st₁, merged)
    else (storeSet st₁ r (storeGet st₁ r ++ [hGetAtomD new "source" (PyAtom.str "unknown")]), merged)
  | HVal.atom _ => (st₁, merged)

/-- One Oslo field on the heap.  `merged[field].extend(arg)` writes the
concatenation back into the referenced cell — the object `existing` still
references; the extension list is read out of the store before the write,
which on self-extension (`a.extend(a)`) doubles the list exactly as CPython
does. -/
def hOsloMergeField (stm : Store × HDict) (new : HDict) (field : String) :
    Store × HDict :=
  let st := stm.1
  let merged := stm.2
  match hGet new field with
  | Option.none => (st, merged)
  | some v =>
    if hTruthy st v then
      match hGet merged field with
      | Option.none => (st, hSet merged field v)
      | some (HVal.ref r) =>
        let ext : List PyAtom :=
          match v with
          | HVal.ref r₂ => storeGet st r₂
          | HVal.atom (PyAtom.str s) => s.data.map (fun c => PyAtom.str (String.mk [c]))
          | HVal.atom _ => []
        (storeSet st r (storeGet st r ++ ext), merged)
      | some (HVal.atom (PyAtom.int n)) =>
        match v with
        | HVal.atom (PyAtom.int m) => (st, hSet merged field (HVal.atom (PyAtom.int (max n m))))
        | _ => (st, merged)
      | some (HVal.atom _) => (st, merged)
    else (st, merged)

/-- `merge_oslo_data` on the heap: returns the post-call store together with
the merged record.  `existing`'s own entries are unchanged as a record, but
the list objects they reference may have been mutated in the store. -/
def merge_oslo_data_heap (st : Store) (existing new : HDict) : Store × HDict :=
  let stm := hOsloSourcesStep st existing new
  let stm := hOsloMergeField stm new "oslo_areas"
  let stm := hOsloMergeField stm new "oslo_terms"
  hOsloMergeField stm new "oslo_relevance_score"

/-- Reading a list-valued field of a record through a store: the list object
the caller observes after the call. -/
def hReadList (st : Store) (d : HDict) (field : String) : List PyAtom :=
  match hGet d field with
  | some (HVal.ref r) => storeGet st r
  | _ => []

example :
    (merge_oslo_data_heap [[PyAtom.str "a"]]
      [("source", HVal.atom (PyAtom.str "s")), ("oslo_areas", HVal.ref 0)]
      [("source", HVal.atom (PyAtom.str "s")), ("oslo_areas", HVal.ref 0)]).1
    = [[PyAtom.str "a", PyAtom.str "a"], [PyAtom.str "s"]] := by decide

/-! Basic lemmas about the dict embedding. -/

theorem pyGet_pySet_self (d : PyDict) (k : String) (v : PyVal) :
    pyGet (pySet d k v) k = some v := by
  induction d with
  | nil => simp [pySet, pyGet]
  | cons hd t ih =>
    obtain ⟨k₁, v₁⟩ := hd
    by_cases h : k₁ = k
    · subst h; simp [pySet, pyGet]
    · simp [pySet, pyGet, h, ih]

theorem pyGet_pySet_other (d : PyDict) (k k' : String) (v : PyVal) (h : k' ≠ k) :
    pyGet (pySet d k v) k' = pyGet d k' := by
  have hkk : ¬(k = k') := fun hh => h hh.symm
  induction d with
  | nil => simp [pySet, pyGet, hkk]
  | cons hd t ih =>
    obtain ⟨k₁, v₁⟩ := hd
    by_cases h₁ : k₁ = k
    · subst h₁
      simp [pySet, pyGet, hkk]
    · by_cases h₂ : k₁ = k'
      · subst h₂; simp [pySet, pyGet, h₁]
      · simp [pySet, pyGet, h₁, h₂, ih]

theorem pyGet_eq_none (d : PyDict) (k : String) (h : k ∉ d.map Prod.fst) :
    pyGet d k = Option.none := by
  induction d with
  | nil => rfl
  | cons hd t ih =>
    obtain ⟨k₁, v₁⟩ := hd
    simp only [List.map_cons, List.mem_cons] at h
    push_neg at h
    have h' : ¬(k₁ = k) := fun hh => h.1 hh.symm
    simp [pyGet, h', ih h.2]

theorem planSourcesStep_get_other (e n : PyDict) (k : String) (h : k ≠ "sources") :
    pyGet (planSourcesStep e n) k = pyGet e k := by
  unfold planSourcesStep
  by_cases h₁ : pyHasKey e "sources" = true
  · simp only [h₁, if_true]
    by_cases h₂ : pyMemList (pyGetD n "source" pvnone) (pyGetD e "sources" pvnone) = true
    · simp [h₂]
    · simp only [h₂, if_false, Bool.false_eq_true]
      exact pyGet_pySet_other _ _ _ _ h
  · simp only [h₁, if_false, Bool.false_eq_true]
    split
    · exact pyGet_pySet_other _ _ _ _ h
    · rw [pyGet_pySet_other _ _ _ _ h]
      exact pyGet_pySet_other _ _ _ _ h

theorem osloSourcesStep_get_other (e n : PyDict) (k : String) (h : k ≠ "oslo_sources") :
    pyGet (osloSourcesStep e n) k = pyGet e k := by
  unfold osloSourcesStep
  by_cases h₁ : pyHasKey e "oslo_sources" = true
  · simp only [h₁, if_true]
    by_cases h₂ : pyMemList (pyGetD n "source" pvnone) (pyGetD e "oslo_sources" pvnone) = true
    · simp [h₂]
    · simp only [h₂, if_false, Bool.false_eq_true]
      exact pyGet_pySet_other _ _ _ _ h
  · simp only [h₁, if_false, Bool.false_eq_true]
    split
    · exact pyGet_pySet_other _ _ _ _ h
    · rw [pyGet_pySet_other _ _ _ _ h]
      exact pyGet_pySet_other _ _ _ _ h

theorem osloMergeField_get_other (n m : PyDict) (field k : String) (h : k ≠ field) :
    pyGet (osloMergeField n m field) k = pyGet m k := by
  unfold osloMergeField
  cases hv : pyGet n field with
  | none => rfl
  | some v =>
    by_cases ht : v.truthy = true
    · simp only [ht, if_true]
      cases hm : pyGet m field with
      | none => exact pyGet_pySet_other _ _ _ _ h
      | some w =>
        cases w with
        | list l =>
          cases v with
          | list m' => exact pyGet_pySet_other _ _ _ _ h
          | atom a =>
            cases a with
            | anone => rfl
            | str s => exact pyGet_pySet_other _ _ _ _ h
            | int i => rfl
        | atom a =>
          cases a with
          | anone => rfl
          | str s => rfl
          | int i =>
            cases v with
            | atom b =>
              cases b with
              | anone => rfl
              | str s => rfl
              | int j => exact pyGet_pySet_other _ _ _ _ h
            | list l => rfl
    · simp [ht]

theorem mergeLoop_keeps_truthy (n : List (String × PyVal)) :
    ∀ (m : PyDict) (k : String), (pyGetD m k pvnone).truthy = true →
    pyGet (n.foldl mergeStep m) k = pyGet m k := by
  induction n with
  | nil => intro m k _; rfl
  | cons hd t ih =>
    intro m k hm
    obtain ⟨k₀, v₀⟩ := hd
    show pyGet (t.foldl mergeStep (mergeStep m (k₀, v₀))) k = pyGet m k
    by_cases hk : k₀ = k
    · subst hk
      have hstep : mergeStep m (k₀, v₀) = m := by
        unfold mergeStep
        rw [if_neg]
        intro hc
        rw [hm] at hc
        exact absurd hc.2.2 (by simp)
      rw [hstep, ih m k₀ hm]
    · have hget : pyGet (mergeStep m (k₀, v₀)) k = pyGet m k := by
        unfold mergeStep
        split
        · exact pyGet_pySet_other _ _ _ _ (fun hh => hk hh.symm)
        · rfl
      have hm' : (pyGetD (mergeStep m (k₀, v₀)) k pvnone).truthy = true := by
        unfold pyGetD
        rw [hget]
        exact hm
      rw [ih _ k hm', hget]

theorem mergeLoop_get (n : List (String × PyVal)) :
    ∀ (m : PyDict) (k : String), (n.map Prod.fst).Nodup →
    pyGet (n.foldl mergeStep m) k =
      if k ≠ "source" ∧ (pyGetD m k pvnone).truthy = false ∧ (pyGetD n k pvnone).truthy = true
      then pyGet n k else pyGet m k := by
  induction n with
  | nil =>
    intro m k _
    rw [if_neg]
    · rfl
    · rintro ⟨-, -, hc⟩
      simp [pyGetD, pyGet, pvnone, PyVal.truthy, PyAtom.truthy] at hc
  | cons hd t ih =>
    intro m k hnd
    obtain ⟨k₀, v₀⟩ := hd
    simp only [List.map_cons, List.nodup_cons] at hnd
    obtain ⟨hk₀, hndt⟩ := hnd
    show pyGet (t.foldl mergeStep (mergeStep m (k₀, v₀))) k = _
    by_cases hk : k₀ = k
    · subst hk
      have htnone : pyGet t k₀ = Option.none := pyGet_eq_none t k₀ hk₀
      have hgn : pyGetD ((k₀, v₀) :: t) k₀ pvnone = v₀ := by simp [pyGetD, pyGet]
      have hgn' : pyGet ((k₀, v₀) :: t) k₀ = some v₀ := by simp [pyGet]
      rw [ih (mergeStep m (k₀, v₀)) k₀ hndt]
      rw [if_neg (by
        rintro ⟨-, -, hc⟩
        simp [pyGetD, htnone, pvnone, PyVal.truthy, PyAtom.truthy] at hc)]
      unfold mergeStep
      by_cases hc : k₀ ≠ "source" ∧ v₀.truthy = true ∧ (pyGetD m k₀ pvnone).truthy = false
      · rw [if_pos hc, pyGet_pySet_self]
        rw [if_pos ⟨hc.1, hc.2.2, by rw [hgn]; exact hc.2.1⟩, hgn']
      · rw [if_neg hc, if_neg]
        rintro ⟨hc1, hc2, hc3⟩
        rw [hgn] at hc3
        exact hc ⟨hc1, hc3, by simpa using hc2⟩
    · have hget : pyGet (mergeStep m (k₀, v₀)) k = pyGet m k := by
        unfold mergeStep
        split
        · exact pyGet_pySet_other _ _ _ _ (fun hh => hk hh.symm)
        · rfl
      have hgn : pyGetD ((k₀, v₀) :: t) k pvnone = pyGetD t k pvnone := by
        simp [pyGetD, pyGet, hk]
      have hgn' : pyGet ((k₀, v₀) :: t) k = pyGet t k := by
        simp [pyGet, hk]
      rw [ih (mergeStep m (k₀, v₀)) k hndt, hgn, hgn']
      have hgd : pyGetD (mergeStep m (k₀, v₀)) k pvnone = pyGetD m k pvnone := by
        unfold pyGetD
        rw [hget]
      rw [hgd]
      split
      · rfl
      · exact hget

theorem merge_plan_get (e n : PyDict) (k : String) (hk : k ≠ "sources") (hnd : IsDict n) :
    pyGet (merge_plan_data e n) k =
      if k ≠ "source" ∧ (pyGetD e k pvnone).truthy = false ∧ (pyGetD n k pvnone).truthy = true
      then pyGet n k else pyGet e k := by
  unfold merge_plan_data
  rw [mergeLoop_get n _ k hnd]
  have h1 : pyGet (planSourcesStep e n) k = pyGet e k := planSourcesStep_get_other e n k hk
  have h2 : pyGetD (planSourcesStep e n) k pvnone = pyGetD e k pvnone := by
    unfold pyGetD; rw [h1]
  rw [h1, h2]

theorem merge_oslo_get_other (e n : PyDict) (k : String)
    (h1 : k ≠ "oslo_sources") (h2 : k ≠ "oslo_areas") (h3 : k ≠ "oslo_terms")
    (h4 : k ≠ "oslo_relevance_score") :
    pyGet (merge_oslo_data e n) k = pyGet e k := by
  unfold merge_oslo_data
  rw [osloMergeField_get_other _ _ _ _ h4, osloMergeField_get_other _ _ _ _ h3,
      osloMergeField_get_other _ _ _ _ h2, osloSourcesStep_get_other _ _ _ h1]

theorem osloMergeField_absent (n m : PyDict) (field : String)
    (hv : pyGet n field = Option.none) : osloMergeField n m field = m := by
  unfold osloMergeField; rw [hv]

theorem osloMergeField_falsy (n m : PyDict) (field : String) (v : PyVal)
    (hv : pyGet n field = some v) (ht : v.truthy = false) :
    osloMergeField n m field = m := by
  unfold osloMergeField; rw [hv]; simp [ht]

theorem osloMergeField_concat (n m : PyDict) (field : String) (l : List PyAtom)
    (a : PyAtom) (mm : List PyAtom)
    (hmf : pyGet m field = some (PyVal.list l))
    (hnf : pyGet n field = some (PyVal.list (a :: mm))) :
    osloMergeField n m field = pySet m field (PyVal.list (l ++ a :: mm)) := by
  unfold osloMergeField
  rw [hnf, hmf]
  simp [PyVal.truthy]

theorem osloMergeField_max (n m : PyDict) (field : String) (a b : Int)
    (hmf : pyGet m field = some (PyVal.atom (PyAtom.int a)))
    (hnf : pyGet n field = some (PyVal.atom (PyAtom.int b))) (hb : b ≠ 0) :
    osloMergeField n m field = pySet m field (PyVal.atom (PyAtom.int (max a b))) := by
  unfold osloMergeField
  rw [hnf, hmf]
  simp [PyVal.truthy, PyAtom.truthy, hb]

theorem osloMergeField_copy (n m : PyDict) (field : String) (v : PyVal)
    (hmf : pyGet m field = Option.none)
    (hnf : pyGet n field = some v) (hv : v.truthy = true) :
    osloMergeField n m field = pySet m field v := by
  unfold osloMergeField
  rw [hnf, hmf]
  simp [hv]

theorem merge_oslo_areas_concat (e n : PyDict) (l m : List PyAtom)
    (he : pyGet e "oslo_areas" = some (PyVal.list l))
    (hn : pyGet n "oslo_areas" = some (PyVal.list m)) (hm : m ≠ []) :
    pyGet (merge_oslo_data e n) "oslo_areas" = some (PyVal.list (l ++ m)) := by
  obtain ⟨a, m', rfl⟩ : ∃ a m', m = a :: m' := by
    cases m with
    | nil => exact absurd rfl hm
    | cons a m' => exact ⟨a, m', rfl⟩
  have hM : pyGet (osloSourcesStep e n) "oslo_areas" = some (PyVal.list l) := by
    rw [osloSourcesStep_get_other e n _ (by decide)]; exact he
  unfold merge_oslo_data
  rw [osloMergeField_concat n _ "oslo_areas" l a m' hM hn,
      osloMergeField_get_other _ _ _ _ (by decide),
      osloMergeField_get_other _ _ _ _ (by decide),
      pyGet_pySet_self]

theorem merge_oslo_terms_concat (e n : PyDict) (l m : List PyAtom)
    (he : pyGet e "oslo_terms" = some (PyVal.list l))
    (hn : pyGet n "oslo_terms" = some (PyVal.list m)) (hm : m ≠ []) :
    pyGet (merge_oslo_data e n) "oslo_terms" = some (PyVal.list (l ++ m)) := by
  obtain ⟨a, m', rfl⟩ : ∃ a m', m = a :: m' := by
    cases m with
    | nil => exact absurd rfl hm
    | cons a m' => exact ⟨a, m', rfl⟩
  have hM : pyGet (osloMergeField n (osloSourcesStep e n) "oslo_areas") "oslo_terms"
      = some (PyVal.list l) := by
    rw [osloMergeField_get_other _ _ _ _ (by decide),
        osloSourcesStep_get_other e n _ (by decide)]
    exact he
  unfold merge_oslo_data
  rw [osloMergeField_concat n _ "oslo_terms" l a m' hM hn,
      osloMergeField_get_other _ _ _ _ (by decide),
      pyGet_pySet_self]

theorem merge_oslo_score_max (e n : PyDict) (a b : Int)
    (he : pyGet e "oslo_relevance_score" = some (PyVal.atom (PyAtom.int a)))
    (hn : pyGet n "oslo_relevance_score" = some (PyVal.atom (PyAtom.int b))) (hb : b ≠ 0) :
    pyGet (merge_oslo_data e n) "oslo_relevance_score"
      = some (PyVal.atom (PyAtom.int (max a b))) := by
  have hM : pyGet (osloMergeField n (osloMergeField n (osloSourcesStep e n) "oslo_areas")
      "oslo_terms") "oslo_relevance_score" = some (PyVal.atom (PyAtom.int a)) := by
    rw [osloMergeField_get_other _ _ _ _ (by decide),
        osloMergeField_get_other _ _ _ _ (by decide),
        osloSourcesStep_get_other e n _ (by decide)]
    exact he
  unfold merge_oslo_data
  rw [osloMergeField_max n _ "oslo_relevance_score" a b hM hn hb,
      pyGet_pySet_self]

theorem merge_oslo_areas_self (r : PyDict) (l : List PyAtom)
    (he : pyGet r "oslo_areas" = some (PyVal.list l)) :
    pyGet (merge_oslo_data r r) "oslo_areas" = some (PyVal.list (l ++ l)) := by
  cases l with
  | nil =>
    unfold merge_oslo_data
    rw [osloMergeField_falsy r _ "oslo_areas" _ he (by simp [PyVal.truthy]),
        osloMergeField_get_other _ _ _ _ (by decide),
        osloMergeField_get_other _ _ _ _ (by decide),
        osloSourcesStep_get_other r r _ (by decide), he]
    simp
  | cons a l' => exact merge_oslo_areas_concat r r _ _ he he (by simp)

theorem merge_oslo_terms_self (r : PyDict) (l : List PyAtom)
    (he : pyGet r "oslo_terms" = some (PyVal.list l)) :
    pyGet (merge_oslo_data r r) "oslo_terms" = some (PyVal.list (l ++ l)) := by
  cases l with
  | nil =>
    unfold merge_oslo_data
    rw [osloMergeField_get_other _ _ _ _ (by decide),
        osloMergeField_falsy r _ "oslo_terms" _ he (by simp [PyVal.truthy]),
        osloMergeField_get_other _ _ _ _ (by decide),
        osloSourcesStep_get_other r r _ (by decide), he]
    simp
  | cons a l' => exact merge_oslo_terms_concat r r _ _ he he (by simp)

theorem merge_oslo_score_self (r : PyDict) (a : Int)
    (he : pyGet r "oslo_relevance_score" = some (PyVal.atom (PyAtom.int a))) :
    pyGet (merge_oslo_data r r) "oslo_relevance_score"
      = some (PyVal.atom (PyAtom.int a)) := by
  by_cases ha : a = 0
  · subst ha
    unfold merge_oslo_data
    rw [osloMergeField_falsy r _ "oslo_relevance_score" _ he
          (by simp [PyVal.truthy, PyAtom.truthy]),
        osloMergeField_get_other _ _ _ _ (by decide),
        osloMergeField_get_other _ _ _ _ (by decide),
        osloSourcesStep_get_other r r _ (by decide)]
    exact he
  · have h := merge_oslo_score_max r r a a he he ha
    rwa [max_self] at h

/-- The source tag a record contributes to a merged `sources` list:
its `source` value, `'unknown'` when absent. -/
def srcTag (d : PyDict) : PyAtom := pyGetAtomD d "source" (PyAtom.str "unknown")

theorem srcTag_def (d : PyDict) :
    pyGetAtomD d "source" (PyAtom.str "unknown") = srcTag d := rfl

theorem srcTag_isStr (d : PyDict)
    (hsrc : ∀ v, pyGet d "source" = some v → ∃ s, v = pvs s) :
    ∃ s, srcTag d = PyAtom.str s := by
  unfold srcTag pyGetAtomD
  cases hv : pyGet d "source" with
  | none => exact ⟨"unknown", rfl⟩
  | some v =>
    obtain ⟨s, rfl⟩ := hsrc v hv
    exact ⟨s, rfl⟩

theorem planSourcesStep_sources (e n : PyDict)
    (hes : pyHasKey e "sources" = false)
    (hesrc : ∀ v, pyGet e "source" = some v → ∃ s, v = pvs s)
    (hnsrc : ∀ v, pyGet n "source" = some v → ∃ s, v = pvs s) :
    ∃ L, pyGet (planSourcesStep e n) "sources" = some (PyVal.list (srcTag e :: L)) ∧
      (srcTag e :: L).toFinset = {srcTag e, srcTag n} := by
  obtain ⟨se, hse⟩ := srcTag_isStr e hesrc
  have hM₁ : pyGet (pySet e "sources" (PyVal.list [srcTag e])) "sources"
      = some (PyVal.list [srcTag e]) := pyGet_pySet_self _ _ _
  have hD₁ : pyGetD (pySet e "sources" (PyVal.list [srcTag e])) "sources" pvnone
      = PyVal.list [srcTag e] := by unfold pyGetD; rw [hM₁]; rfl
  unfold planSourcesStep
  simp only [hes, Bool.false_eq_true, if_false, srcTag_def, hD₁]
  cases hv : pyGet n "source" with
  | none =>
    have hvd : pyGetD n "source" pvnone = pvnone := by unfold pyGetD; rw [hv]; rfl
    rw [hvd]
    have hmem : pyMemList pvnone (PyVal.list [srcTag e]) = false := by
      rw [hse]
      simp [pyMemList, pvnone, List.contains]
    rw [hmem]
    simp only [Bool.false_eq_true, if_false, pyAppendAtom]
    refine ⟨[srcTag n], pyGet_pySet_self _ _ _, ?_⟩
    simp
  | some v =>
    obtain ⟨sn, rfl⟩ := hnsrc v hv
    have hvd : pyGetD n "source" pvnone = pvs sn := by unfold pyGetD; rw [hv]; rfl
    have htag : srcTag n = PyAtom.str sn := by
      unfold srcTag pyGetAtomD; rw [hv]; rfl
    rw [hvd]
    by_cases heq : PyAtom.str sn = srcTag e
    · have hmem : pyMemList (pvs sn) (PyVal.list [srcTag e]) = true := by
        simp [pyMemList, pvs, List.contains, heq]
      rw [hmem]
      simp only [if_true]
      refine ⟨[], hM₁, ?_⟩
      rw [htag, ← heq]
      simp
    · have hmem : pyMemList (pvs sn) (PyVal.list [srcTag e]) = false := by
        simp [pyMemList, pvs, List.contains, heq]
      rw [hmem]
      simp only [Bool.false_eq_true, if_false, pyAppendAtom]
      refine ⟨[srcTag n], pyGet_pySet_self _ _ _, ?_⟩
      simp

theorem merge_plan_sources (e n : PyDict)
    (hes : pyHasKey e "sources" = false)
    (hesrc : ∀ v, pyGet e "source" = some v → ∃ s, v = pvs s)
    (hnsrc : ∀ v, pyGet n "source" = some v → ∃ s, v = pvs s) :
    ∃ l, pyGet (merge_plan_data e n) "sources" = some (PyVal.list l) ∧
      l.toFinset = {srcTag e, srcTag n} := by
  obtain ⟨L, hL, hLfin⟩ := planSourcesStep_sources e n hes hesrc hnsrc
  refine ⟨srcTag e :: L, ?_, hLfin⟩
  unfold merge_plan_data
  rw [mergeLoop_keeps_truthy n _ "sources" (by
        unfold pyGetD; rw [hL]; simp [PyVal.truthy])]
  exact hL

theorem string_data_nil_eq (s : String) (h : s.data = []) : s = "" := by
  obtain ⟨data⟩ := s
  simp only at h
  rw [h]

theorem pyLower_ne_empty (s : String) (h : s ≠ "") : pyLower s ≠ "" := by
  intro hc
  apply h
  have h1 : s.data.map pyCharLower = ([] : List Char) := congrArg String.data hc
  exact string_data_nil_eq s (List.map_eq_nil_iff.mp h1)

theorem append_left_ne_empty (a b : String) (h : a ≠ "") : a ++ b ≠ "" := by
  intro hc
  apply h
  have h1 : a.data ++ b.data = ([] : List Char) := congrArg String.data hc
  exact string_data_nil_eq a (List.append_eq_nil.mp h1).1

theorem pyJoin_cons_ne_empty (sep x : String) (xs : List String) (h : x ≠ "") :
    pyJoin sep (x :: xs) ≠ "" := by
  cases xs with
  | nil => exact h
  | cons y ys =>
    show x ++ sep ++ pyJoin sep (y :: ys) ≠ ""
    exact append_left_ne_empty _ _ (append_left_ne_empty _ _ h)

/-! Claim theorems. -/

/-- C1 counterexample: a record with municipality `'bergen'` and a non-empty
`plan_id` gets the key `'oslo_X'` from `generate_oslo_key` — the literal
`'oslo'` prefix, not the lowercased municipality joined with the
identifier. -/
theorem C1_oslo_key_ignores_municipality :
    generate_oslo_key ⟨fun _ => 0, fun _ => 0⟩
        [("municipality", pvs "bergen"), ("plan_id", pvs "X")] = some "oslo_X"
    ∧ "oslo_X" ≠ "bergen_X" := by
  constructor
  · decide
  · decide

/-- C1 amended: `generate_plan_key` behaves as the claim states (lowercased
municipality joined with the identifier when present and non-empty, else
with the first up-to-three word tokens of the lowercased title), but
`generate_oslo_key` ignores the municipality: whenever the identifier is a
non-empty string it returns the literal `'oslo_'` followed by the
identifier, for any hash function. -/
theorem C1_generate_key_shapes (m t p : String) (h : HashFns) (hp : p ≠ "") :
    generate_plan_key [("municipality", pvs m), ("title", pvs t), ("plan_id", pvs p)]
        = some (pyLower m ++ "_" ++ p)
  ∧ generate_plan_key [("municipality", pvs m), ("title", pvs t), ("plan_id", pvs "")]
        = some (pyJoin "_" (pyLower m :: (wordTokens (pyLower t)).take 3))
  ∧ generate_oslo_key h [("municipality", pvs m), ("title", pvs t), ("plan_id", pvs p)]
        = some ("oslo_" ++ p) := by
  refine ⟨?_, ?_, ?_⟩
  · simp [generate_plan_key, pyGetD, pyGet, pyLowerVal, pvs, PyVal.truthy, PyAtom.truthy,
      hp, pyJoin]
  · simp [generate_plan_key, pyGetD, pyGet, pyLowerVal, pvs, PyVal.truthy, PyAtom.truthy]
  · simp [generate_oslo_key, pyGetD, pyGet, pyLowerVal, pvs, PyVal.truthy, PyAtom.truthy,
      hp, pyStrVal]

/-- Witness for `C1_generate_key_shapes` at the spec's own example record. -/
theorem C1_generate_key_shapes_witness :
    "OSL-001" ≠ "" ∧
    generate_plan_key [("municipality", pvs "Oslo"), ("title", pvs "Frogner Park Plan"),
        ("plan_id", pvs "OSL-001")] = some (pyLower "Oslo" ++ "_" ++ "OSL-001") :=
  ⟨by decide,
   (C1_generate_key_shapes "Oslo" "Frogner Park Plan" "OSL-001"
      ⟨fun _ => 0, fun _ => 0⟩ (by decide)).1⟩

/-- A record field that is a string when present, as all municipality, title
and identifier fields produced by this system's collectors are. -/
def strOrAbsent (d : PyDict) (k : String) : Prop :=
  ∀ v, pyGet d k = some v → ∃ s, v = pvs s

/-- C2 counterexample: on the record `{'municipality': ''}` (empty-string
municipality, no title, no identifier) `generate_plan_key` returns the empty
string, contradicting the claim that the generators always return a
non-empty string. -/
theorem C2_plan_key_empty :
    generate_plan_key [("municipality", pvs "")] = some "" := by decide

/-- C2 amended: on records whose municipality, title and identifier fields
are strings when present, neither generator raises; `generate_oslo_key`
always returns a non-empty key; `generate_plan_key` returns a non-empty key
provided its municipality field is absent (defaulting to `'unknown'`) or
non-empty — with a present-but-empty municipality it can return the empty
string, as `C2_plan_key_empty` shows. -/
theorem C2_generate_key_total (d : PyDict)
    (hm : strOrAbsent d "municipality") (ht : strOrAbsent d "title")
    (hp : strOrAbsent d "plan_id") :
    (∃ s, generate_plan_key d = some s)
  ∧ (∀ h : HashFns, ∃ s, generate_oslo_key h d = some s ∧ s ≠ "")
  ∧ (∀ s, generate_plan_key d = some s →
      (pyGet d "municipality" = Option.none ∨
        (∃ m, pyGet d "municipality" = some (pvs m) ∧ m ≠ "")) → s ≠ "") := by
  obtain ⟨m0, hm0, hm0n, hm0s⟩ :
      ∃ m0, pyLowerVal (pyGetD d "municipality" (pvs "unknown")) = some (pyLower m0) ∧
        (pyGet d "municipality" = Option.none → m0 = "unknown") ∧
        (∀ m', pyGet d "municipality" = some (pvs m') → m0 = m') := by
    cases hv : pyGet d "municipality" with
    | none =>
      refine ⟨"unknown", by simp [pyGetD, hv, pyLowerVal, pvs], fun _ => rfl, ?_⟩
      intro m' h'
      simp at h'
    | some v =>
      obtain ⟨s, rfl⟩ := hm v hv
      refine ⟨s, by simp [pyGetD, hv, pyLowerVal, pvs], ?_, ?_⟩
      · intro h'; simp at h'
      · intro m' h'
        simp [pvs] at h'
        exact h'
  obtain ⟨t0, ht0⟩ :
      ∃ t0, pyLowerVal (pyGetD d "title" (pvs "")) = some (pyLower t0) := by
    cases hv : pyGet d "title" with
    | none => exact ⟨"", by simp [pyGetD, hv, pyLowerVal, pvs]⟩
    | some v =>
      obtain ⟨s, rfl⟩ := ht v hv
      exact ⟨s, by simp [pyGetD, hv, pyLowerVal, pvs]⟩
  obtain ⟨p0, hp0⟩ : ∃ p0, pyGetD d "plan_id" (pvs "") = pvs p0 := by
    cases hv : pyGet d "plan_id" with
    | none => exact ⟨"", by simp [pyGetD, hv]⟩
    | some v =>
      obtain ⟨s, rfl⟩ := hp v hv
      exact ⟨s, by simp [pyGetD, hv]⟩
  have hoslo5 : ("oslo_" : String) ≠ "" := by decide
  have hosloG : ("oslo_general_" : String) ≠ "" := by decide
  by_cases hp0e : p0 = ""
  · have hplan : generate_plan_key d
        = some (pyJoin "_" (pyLower m0 :: (wordTokens (pyLower t0)).take 3)) := by
      simp only [generate_plan_key, hm0, ht0, hp0, hp0e]
      simp [pvs, PyVal.truthy, PyAtom.truthy]
    refine ⟨⟨_, hplan⟩, ?_, ?_⟩
    · intro h
      simp only [generate_oslo_key, ht0, hp0, hp0e]
      simp only [pvs, PyVal.truthy, PyAtom.truthy]
      by_cases hte : pyLower t0 = ""
      · refine ⟨"oslo_general_" ++ toString (h.hd d % 1000), ?_,
          append_left_ne_empty _ _ hosloG⟩
        simp [hte]
      · cases hfind : osloOmrader.find? (fun area => pyInStr (pyLower t0) area) with
        | none =>
          refine ⟨"oslo_general_" ++ toString (h.hd d % 1000), ?_,
            append_left_ne_empty _ _ hosloG⟩
          simp [hte, hfind]
        | some area =>
          refine ⟨"oslo_" ++ area ++ "_" ++ toString (h.hs (pyLower t0) % 1000), ?_,
            append_left_ne_empty _ _ (append_left_ne_empty _ _ (append_left_ne_empty _ _ hoslo5))⟩
          simp [hte, hfind]
    · intro s hs hmun
      rw [hplan] at hs
      injection hs with hs
      subst hs
      have hm0e : m0 ≠ "" := by
        rcases hmun with hnone | ⟨m', hm', hm'e⟩
        · rw [hm0n hnone]; decide
        · rw [hm0s m' hm']; exact hm'e
      exact pyJoin_cons_ne_empty _ _ _ (pyLower_ne_empty _ hm0e)
  · have hplan : generate_plan_key d = some (pyJoin "_" [pyLower m0, p0]) := by
      simp only [generate_plan_key, hm0, ht0, hp0]
      simp [pvs, PyVal.truthy, PyAtom.truthy, hp0e]
    refine ⟨⟨_, hplan⟩, ?_, ?_⟩
    · intro h
      refine ⟨"oslo_" ++ p0, ?_, append_left_ne_empty _ _ hoslo5⟩
      simp only [generate_oslo_key, ht0, hp0]
      simp [pvs, PyVal.truthy, PyAtom.truthy, hp0e, pyStrVal]
    · intro s hs hmun
      rw [hplan] at hs
      injection hs with hs
      subst hs
      have hm0e : m0 ≠ "" := by
        rcases hmun with hnone | ⟨m', hm', hm'e⟩
        · rw [hm0n hnone]; decide
        · rw [hm0s m' hm']; exact hm'e
      exact pyJoin_cons_ne_empty _ _ _ (pyLower_ne_empty _ hm0e)

/-- Witness for `C2_generate_key_total` at a concrete record with an empty
title and no identifier. -/
theorem C2_generate_key_total_witness :
    (∃ s, generate_plan_key [("municipality", pvs "Oslo"), ("title", pvs "")] = some s)
  ∧ (∀ h : HashFns, ∃ s,
      generate_oslo_key h [("municipality", pvs "Oslo"), ("title", pvs "")] = some s ∧ s ≠ "")
  ∧ (∀ s, generate_plan_key [("municipality", pvs "Oslo"), ("title", pvs "")] = some s →
      (pyGet [("municipality", pvs "Oslo"), ("title", pvs "")] "municipality" = Option.none ∨
        (∃ m, pyGet [("municipality", pvs "Oslo"), ("title", pvs "")] "municipality"
          = some (pvs m) ∧ m ≠ "")) → s ≠ "") := by
  refine C2_generate_key_total _ ?_ ?_ ?_
  · intro v hv
    simp [pyGet] at hv
    exact ⟨"Oslo", hv.symm⟩
  · intro v hv
    simp [pyGet] at hv
    exact ⟨"", hv.symm⟩
  · intro v hv
    simp [pyGet] at hv

theorem osloMergeField_keeps_truthy (n m : PyDict) (field : String)
    (h : (pyGetD m field pvnone).truthy = true) :
    (pyGetD (osloMergeField n m field) field pvnone).truthy = true := by
  cases hv : pyGet n field with
  | none => rw [osloMergeField_absent n m field hv]; exact h
  | some v =>
    by_cases ht : v.truthy = true
    · cases hw : pyGet m field with
      | none =>
        unfold pyGetD at h
        rw [hw] at h
        simp [pvnone, PyVal.truthy, PyAtom.truthy] at h
      | some w =>
        have hwt : w.truthy = true := by
          unfold pyGetD at h
          rw [hw] at h
          exact h
        cases w with
        | list l =>
          obtain ⟨a, l', rfl⟩ : ∃ a l', l = a :: l' := by
            cases l with
            | nil => simp [PyVal.truthy] at hwt
            | cons a l' => exact ⟨a, l', rfl⟩
          cases v with
          | list m' =>
            obtain ⟨b, m'', rfl⟩ : ∃ b m'', m' = b :: m'' := by
              cases m' with
              | nil => simp [PyVal.truthy] at ht
              | cons b m'' => exact ⟨b, m'', rfl⟩
            rw [osloMergeField_concat n m field _ _ _ hw hv]
            unfold pyGetD
            rw [pyGet_pySet_self]
            simp [PyVal.truthy]
          | atom b =>
            cases b with
            | anone => simp [PyVal.truthy, PyAtom.truthy] at ht
            | str s =>
              have : osloMergeField n m field
                  = pySet m field (PyVal.list ((a :: l')
                      ++ s.data.map (fun c => PyAtom.str (String.mk [c])))) := by
                unfold osloMergeField
                rw [hv, hw]
                simp [ht]
              rw [this]
              unfold pyGetD
              rw [pyGet_pySet_self]
              simp [PyVal.truthy]
            | int i =>
              have : osloMergeField n m field = m := by
                unfold osloMergeField
                rw [hv, hw]
                simp [ht]
              rw [this]
              exact h
        | atom b =>
          cases b with
          | anone => simp [PyVal.truthy, PyAtom.truthy] at hwt
          | str s =>
            have : osloMergeField n m field = m := by
              unfold osloMergeField
              rw [hv, hw]
              simp [ht]
            rw [this]
            exact h
          | int a =>
            have ha : a ≠ 0 := by
              simp [PyVal.truthy, PyAtom.truthy] at hwt
              exact hwt
            cases v with
            | list m' =>
              have : osloMergeField n m field = m := by
                unfold osloMergeField
                rw [hv, hw]
                simp [ht]
              rw [this]
              exact h
            | atom c =>
              cases c with
              | anone => simp [PyVal.truthy, PyAtom.truthy] at ht
              | str s =>
                have : osloMergeField n m field = m := by
                  unfold osloMergeField
                  rw [hv, hw]
                  simp [ht]
                rw [this]
                exact h
              | int b =>
                have hb : b ≠ 0 := by
                  simp [PyVal.truthy, PyAtom.truthy] at ht
                  exact ht
                rw [osloMergeField_max n m field a b hw hv hb]
                unfold pyGetD
                rw [pyGet_pySet_self]
                have : max a b ≠ 0 := by
                  rcases max_choice a b with hc | hc <;> rw [hc]
                  · exact ha
                  · exact hb
                simp [PyVal.truthy, PyAtom.truthy, this]
    · rw [osloMergeField_falsy n m field v hv (by simpa using ht)]
      exact h

theorem osloMergeField_keeps_truthy_any (n m : PyDict) (field k : String)
    (hm : (pyGetD m k pvnone).truthy = true) :
    (pyGetD (osloMergeField n m field) k pvnone).truthy = true := by
  by_cases hkf : k = field
  · subst hkf; exact osloMergeField_keeps_truthy n m k hm
  · unfold pyGetD
    rw [osloMergeField_get_other n m field k hkf]
    exact hm

theorem merge_oslo_keeps_truthy (e n : PyDict) (k : String) (hk : k ≠ "oslo_sources")
    (h : (pyGetD e k pvnone).truthy = true) :
    (pyGetD (merge_oslo_data e n) k pvnone).truthy = true := by
  have h0 : (pyGetD (osloSourcesStep e n) k pvnone).truthy = true := by
    unfold pyGetD
    rw [osloSourcesStep_get_other e n k hk]
    exact h
  exact osloMergeField_keeps_truthy_any _ _ _ _
    (osloMergeField_keeps_truthy_any _ _ _ _ (osloMergeField_keeps_truthy_any _ _ _ _ h0))

theorem osloMergeField_incoming_list_truthy (n m : PyDict) (field : String)
    (mm : List PyAtom) (hnf : pyGet n field = some (PyVal.list mm)) (hm : mm ≠ [])
    (hmf : pyGet m field = Option.none ∨ ∃ l, pyGet m field = some (PyVal.list l)) :
    (pyGetD (osloMergeField n m field) field pvnone).truthy = true := by
  obtain ⟨a, mm', rfl⟩ : ∃ a mm', mm = a :: mm' := by
    cases mm with
    | nil => exact absurd rfl hm
    | cons a mm' => exact ⟨a, mm', rfl⟩
  rcases hmf with hnone | ⟨l, hl⟩
  · rw [osloMergeField_copy n m field _ hnone hnf (by simp [PyVal.truthy])]
    unfold pyGetD
    rw [pyGet_pySet_self]
    simp [PyVal.truthy]
  · rw [osloMergeField_concat n m field l a mm' hl hnf]
    unfold pyGetD
    rw [pyGet_pySet_self]
    simp [PyVal.truthy]

theorem osloMergeField_incoming_int_truthy (n m : PyDict) (field : String)
    (b : Int) (hnf : pyGet n field = some (PyVal.atom (PyAtom.int b))) (hb : 0 < b)
    (hmf : pyGet m field = Option.none ∨
      ∃ a, pyGet m field = some (PyVal.atom (PyAtom.int a))) :
    (pyGetD (osloMergeField n m field) field pvnone).truthy = true := by
  rcases hmf with hnone | ⟨a, ha⟩
  · rw [osloMergeField_copy n m field _ hnone hnf
      (by simp [PyVal.truthy, PyAtom.truthy, hb.ne'])]
    unfold pyGetD
    rw [pyGet_pySet_self]
    simp [PyVal.truthy, PyAtom.truthy, hb.ne']
  · rw [osloMergeField_max n m field a b ha hnf hb.ne']
    unfold pyGetD
    rw [pyGet_pySet_self]
    have hmx : max a b ≠ 0 := (lt_of_lt_of_le hb (le_max_right a b)).ne'
    simp [PyVal.truthy, PyAtom.truthy, hmx]

theorem strOrAbsent_of_eq {d : PyDict} {k s0 : String}
    (h : pyGet d k = some (pvs s0)) : strOrAbsent d k := by
  intro v hv
  rw [h] at hv
  exact ⟨s0, (Option.some.inj hv).symm⟩

/-- C3 counterexample: with `oslo_areas` populated on both records,
`merge_oslo_data` replaces existing's value `['a']` by the concatenation
`['a', 'b']` — an existing non-empty field value is not kept unchanged. -/
theorem C3_oslo_overwrites_existing_list :
    pyGet [("oslo_areas", PyVal.list [PyAtom.str "a"])] "oslo_areas"
      = some (PyVal.list [PyAtom.str "a"])
  ∧ pyGet (merge_oslo_data [("oslo_areas", PyVal.list [PyAtom.str "a"])]
        [("oslo_areas", PyVal.list [PyAtom.str "b"])]) "oslo_areas"
      = some (PyVal.list [PyAtom.str "a", PyAtom.str "b"])
  ∧ (some (PyVal.list [PyAtom.str "a", PyAtom.str "b"])
      ≠ some (PyVal.list [PyAtom.str "a"])) := by
  refine ⟨by decide, by decide, by decide⟩

/-- C3 amended: the claim holds for `merge_plan_data`: every truthy field of
`existing` (apart from the `sources` bookkeeping) survives unchanged, a field
of the result comes from `existing` or — only when absent/falsy on
`existing` — from `incoming`, and the `sources` list is the union of the two
records' source tags.  For `merge_oslo_data` it holds only outside the three
Oslo-specific fields, whose populated existing values are changed by list
concatenation and score maximisation (see the counterexample). -/
theorem C3_merge_first_wins (e n : PyDict) (hdn : IsDict n)
    (hes : pyHasKey e "sources" = false)
    (hesrc : ∀ v, pyGet e "source" = some v → ∃ s, v = pvs s)
    (hnsrc : ∀ v, pyGet n "source" = some v → ∃ s, v = pvs s) :
    (∀ k, k ≠ "sources" → (pyGetD e k pvnone).truthy = true →
        pyGet (merge_plan_data e n) k = pyGet e k)
  ∧ (∀ k v, k ≠ "sources" → pyGet (merge_plan_data e n) k = some v →
        pyGet e k = some v ∨
          ((pyGetD e k pvnone).truthy = false ∧ pyGet n k = some v ∧ v.truthy = true))
  ∧ (∃ l, pyGet (merge_plan_data e n) "sources" = some (PyVal.list l) ∧
        l.toFinset = {srcTag e, srcTag n})
  ∧ (∀ k, k ≠ "oslo_sources" → k ≠ "oslo_areas" → k ≠ "oslo_terms" →
        k ≠ "oslo_relevance_score" → pyGet (merge_oslo_data e n) k = pyGet e k) := by
  refine ⟨?_, ?_, merge_plan_sources e n hes hesrc hnsrc,
    fun k h1 h2 h3 h4 => merge_oslo_get_other e n k h1 h2 h3 h4⟩
  · intro k hk htr
    rw [merge_plan_get e n k hk hdn, if_neg]
    rintro ⟨-, hc, -⟩
    rw [htr] at hc
    simp at hc
  · intro k v hk hv
    rw [merge_plan_get e n k hk hdn] at hv
    split at hv
    case isTrue hcond =>
      right
      refine ⟨hcond.2.1, hv, ?_⟩
      have h := hcond.2.2
      unfold pyGetD at h
      rw [hv] at h
      exact h
    case isFalse => exact Or.inl hv

/-- Witness for `C3_merge_first_wins`: the sources list of a concrete merge
is the union of the two source tags. -/
theorem C3_merge_first_wins_witness :
    ∃ l, pyGet (merge_plan_data [("source", pvs "geonorge"), ("title", pvs "Plan A")]
          [("source", pvs "oslo_origo"), ("title", pvs "Plan B")]) "sources"
        = some (PyVal.list l) ∧
      l.toFinset = {srcTag [("source", pvs "geonorge"), ("title", pvs "Plan A")],
        srcTag [("source", pvs "oslo_origo"), ("title", pvs "Plan B")]} :=
  (C3_merge_first_wins _ _ (by decide) (by decide)
    (strOrAbsent_of_eq (show pyGet [("source", pvs "geonorge"), ("title", pvs "Plan A")]
      "source" = some (pvs "geonorge") by decide))
    (strOrAbsent_of_eq (show pyGet [("source", pvs "oslo_origo"), ("title", pvs "Plan B")]
      "source" = some (pvs "oslo_origo") by decide))).2.2.1

/-- C4 counterexample: `merge_plan_data` does not concatenate list-valued
attributes populated on both sides — it keeps existing's list. -/
theorem C4_plan_merge_keeps_first_list :
    pyGet (merge_plan_data [("documents", PyVal.list [PyAtom.str "a"])]
        [("documents", PyVal.list [PyAtom.str "b"])]) "documents"
      = some (PyVal.list [PyAtom.str "a"])
  ∧ (some (PyVal.list [PyAtom.str "a"])
      ≠ some (PyVal.list [PyAtom.str "a", PyAtom.str "b"])) := by
  refine ⟨by decide, by decide⟩

/-- C4 amended: concatenation (duplicates kept) and score maximisation hold
for `merge_oslo_data`'s three designated fields; `merge_plan_data` instead
keeps existing's value for every populated field, lists and scores
included. -/
theorem C4_merge_concat_max (e n : PyDict) :
    (∀ l m, pyGet e "oslo_areas" = some (PyVal.list l) →
        pyGet n "oslo_areas" = some (PyVal.list m) → m ≠ [] →
        pyGet (merge_oslo_data e n) "oslo_areas" = some (PyVal.list (l ++ m)))
  ∧ (∀ l m, pyGet e "oslo_terms" = some (PyVal.list l) →
        pyGet n "oslo_terms" = some (PyVal.list m) → m ≠ [] →
        pyGet (merge_oslo_data e n) "oslo_terms" = some (PyVal.list (l ++ m)))
  ∧ (∀ a b : Int, pyGet e "oslo_relevance_score" = some (PyVal.atom (PyAtom.int a)) →
        pyGet n "oslo_relevance_score" = some (PyVal.atom (PyAtom.int b)) → b ≠ 0 →
        pyGet (merge_oslo_data e n) "oslo_relevance_score"
          = some (PyVal.atom (PyAtom.int (max a b))))
  ∧ (∀ k, IsDict n → k ≠ "sources" → (pyGetD e k pvnone).truthy = true →
        pyGet (merge_plan_data e n) k = pyGet e k) := by
  refine ⟨merge_oslo_areas_concat e n, merge_oslo_terms_concat e n,
    merge_oslo_score_max e n, ?_⟩
  intro k hdn hk htr
  rw [merge_plan_get e n k hk hdn, if_neg]
  rintro ⟨-, hc, -⟩
  rw [htr] at hc
  simp at hc

/-- Witness for `C4_merge_concat_max`: a concrete concatenating merge and a
concrete score maximisation. -/
theorem C4_merge_concat_max_witness :
    pyGet (merge_oslo_data [("oslo_areas", PyVal.list [PyAtom.str "sentrum"])]
        [("oslo_areas", PyVal.list [PyAtom.str "frogner"])]) "oslo_areas"
      = some (PyVal.list ([PyAtom.str "sentrum"] ++ [PyAtom.str "frogner"]))
  ∧ pyGet (merge_oslo_data [("oslo_relevance_score", PyVal.atom (PyAtom.int 2))]
        [("oslo_relevance_score", PyVal.atom (PyAtom.int 5))]) "oslo_relevance_score"
      = some (PyVal.atom (PyAtom.int (max 2 5))) :=
  ⟨(C4_merge_concat_max _ _).1 _ _ (by decide) (by decide) (by decide),
   (C4_merge_concat_max _ _).2.2.1 2 5 (by decide) (by decide) (by decide)⟩

/-- C5 counterexample: merging a record into itself through
`merge_oslo_data` doubles its populated `oslo_areas` list, so the result is
not equal to the record outside the sources field. -/
theorem C5_self_merge_doubles :
    pyGet [("source", pvs "s"), ("oslo_areas", PyVal.list [PyAtom.str "sentrum"])]
        "oslo_areas" = some (PyVal.list [PyAtom.str "sentrum"])
  ∧ pyGet (merge_oslo_data
        [("source", pvs "s"), ("oslo_areas", PyVal.list [PyAtom.str "sentrum"])]
        [("source", pvs "s"), ("oslo_areas", PyVal.list [PyAtom.str "sentrum"])])
        "oslo_areas" = some (PyVal.list [PyAtom.str "sentrum", PyAtom.str "sentrum"])
  ∧ (some (PyVal.list [PyAtom.str "sentrum", PyAtom.str "sentrum"])
      ≠ some (PyVal.list [PyAtom.str "sentrum"])) := by
  refine ⟨by decide, by decide, by decide⟩

/-- C5 amended: `merge_plan_data` is idempotent modulo the `sources` field;
`merge_oslo_data` is idempotent outside its bookkeeping and Oslo-specific
fields, and its relevance score is idempotent too, but its populated
list-valued `oslo_areas`/`oslo_terms` are doubled on a self-merge. -/
theorem C5_merge_self (r : PyDict) (hdr : IsDict r) :
    (∀ k, k ≠ "sources" → pyGet (merge_plan_data r r) k = pyGet r k)
  ∧ (∀ k, k ≠ "oslo_sources" → k ≠ "oslo_areas" → k ≠ "oslo_terms" →
        k ≠ "oslo_relevance_score" → pyGet (merge_oslo_data r r) k = pyGet r k)
  ∧ (∀ l, pyGet r "oslo_areas" = some (PyVal.list l) →
        pyGet (merge_oslo_data r r) "oslo_areas" = some (PyVal.list (l ++ l)))
  ∧ (∀ l, pyGet r "oslo_terms" = some (PyVal.list l) →
        pyGet (merge_oslo_data r r) "oslo_terms" = some (PyVal.list (l ++ l)))
  ∧ (∀ a : Int, pyGet r "oslo_relevance_score" = some (PyVal.atom (PyAtom.int a)) →
        pyGet (merge_oslo_data r r) "oslo_relevance_score"
          = some (PyVal.atom (PyAtom.int a))) := by
  refine ⟨?_, fun k h1 h2 h3 h4 => merge_oslo_get_other r r k h1 h2 h3 h4,
    merge_oslo_areas_self r, merge_oslo_terms_self r, merge_oslo_score_self r⟩
  intro k hk
  rw [merge_plan_get r r k hk hdr, if_neg]
  rintro ⟨-, hc1, hc2⟩
  rw [hc1] at hc2
  simp at hc2

/-- Witness for `C5_merge_self`: a concrete plan-record self-merge leaves
the title untouched. -/
theorem C5_merge_self_witness :
    pyGet (merge_plan_data [("title", pvs "Plan")] [("title", pvs "Plan")]) "title"
      = pyGet [("title", pvs "Plan")] "title" :=
  (C5_merge_self [("title", pvs "Plan")] (by decide)).1 "title" (by decide)

/-- C6 counterexample: the incoming record's truthy `title` is absent from
the `merge_oslo_data` result — a populated attribute of an input is dropped. -/
theorem C6_oslo_merge_drops_title :
    (pyGetD [("source", pvs "b"), ("title", pvs "X")] "title" pvnone).truthy = true
  ∧ pyGet (merge_oslo_data [("source", pvs "a")]
        [("source", pvs "b"), ("title", pvs "X")]) "title" = Option.none := by
  refine ⟨by decide, by decide⟩

/-- C6 amended: population monotonicity holds for `merge_plan_data` on every
attribute other than the `source` tag itself (recorded in `sources`
instead); for `merge_oslo_data` it holds for existing's attributes and for
incoming's three Oslo-specific fields when their value shapes match
(list with list-or-absent, positive score with score-or-absent) — incoming's
other populated attributes are dropped, as the counterexample shows. -/
theorem C6_merge_population (e n : PyDict) (hdn : IsDict n) :
    (∀ k, k ≠ "source" → k ≠ "sources" →
        ((pyGetD e k pvnone).truthy = true ∨ (pyGetD n k pvnone).truthy = true) →
        (pyGetD (merge_plan_data e n) k pvnone).truthy = true)
  ∧ (∀ k, k ≠ "oslo_sources" → (pyGetD e k pvnone).truthy = true →
        (pyGetD (merge_oslo_data e n) k pvnone).truthy = true)
  ∧ (∀ m, pyGet n "oslo_areas" = some (PyVal.list m) → m ≠ [] →
        (pyGet e "oslo_areas" = Option.none ∨
          ∃ l, pyGet e "oslo_areas" = some (PyVal.list l)) →
        (pyGetD (merge_oslo_data e n) "oslo_areas" pvnone).truthy = true)
  ∧ (∀ m, pyGet n "oslo_terms" = some (PyVal.list m) → m ≠ [] →
        (pyGet e "oslo_terms" = Option.none ∨
          ∃ l, pyGet e "oslo_terms" = some (PyVal.list l)) →
        (pyGetD (merge_oslo_data e n) "oslo_terms" pvnone).truthy = true)
  ∧ (∀ b : Int, pyGet n "oslo_relevance_score" = some (PyVal.atom (PyAtom.int b)) →
        0 < b →
        (pyGet e "oslo_relevance_score" = Option.none ∨
          ∃ a, pyGet e "oslo_relevance_score" = some (PyVal.atom (PyAtom.int a))) →
        (pyGetD (merge_oslo_data e n) "oslo_relevance_score" pvnone).truthy = true) := by
  refine ⟨?_, fun k hk h => merge_oslo_keeps_truthy e n k hk h, ?_, ?_, ?_⟩
  · intro k hk1 hk2 hor
    unfold pyGetD
    rw [merge_plan_get e n k hk2 hdn]
    split
    case isTrue hcond => exact hcond.2.2
    case isFalse hcond =>
      rcases hor with he | hn
      · exact he
      · by_cases he : (pyGetD e k pvnone).truthy = true
        · exact he
        · rw [Bool.not_eq_true] at he
          exact absurd ⟨hk1, he, hn⟩ hcond
  · intro m hnf hm he
    have h1 : (pyGetD (osloMergeField n (osloSourcesStep e n) "oslo_areas")
        "oslo_areas" pvnone).truthy = true := by
      apply osloMergeField_incoming_list_truthy n _ _ m hnf hm
      rcases he with h | ⟨l, hl⟩
      · left; rw [osloSourcesStep_get_other e n _ (by decide)]; exact h
      · right; exact ⟨l, by rw [osloSourcesStep_get_other e n _ (by decide)]; exact hl⟩
    exact osloMergeField_keeps_truthy_any _ _ _ _
      (osloMergeField_keeps_truthy_any _ _ _ _ h1)
  · intro m hnf hm he
    have h1 : (pyGetD (osloMergeField n
        (osloMergeField n (osloSourcesStep e n) "oslo_areas") "oslo_terms")
        "oslo_terms" pvnone).truthy = true := by
      apply osloMergeField_incoming_list_truthy n _ _ m hnf hm
      rcases he with h | ⟨l, hl⟩
      · left
        rw [osloMergeField_get_other _ _ _ _ (by decide),
            osloSourcesStep_get_other e n _ (by decide)]
        exact h
      · right
        refine ⟨l, ?_⟩
        rw [osloMergeField_get_other _ _ _ _ (by decide),
            osloSourcesStep_get_other e n _ (by decide)]
        exact hl
    exact osloMergeField_keeps_truthy_any _ _ _ _ h1
  · intro b hnf hb he
    apply osloMergeField_incoming_int_truthy n _ _ b hnf hb
    rcases he with h | ⟨a, ha⟩
    · left
      rw [osloMergeField_get_other _ _ _ _ (by decide),
          osloMergeField_get_other _ _ _ _ (by decide),
          osloSourcesStep_get_other e n _ (by decide)]
      exact h
    · right
      refine ⟨a, ?_⟩
      rw [osloMergeField_get_other _ _ _ _ (by decide),
          osloMergeField_get_other _ _ _ _ (by decide),
          osloSourcesStep_get_other e n _ (by decide)]
      exact ha

/-- Witness for `C6_merge_population`: a field populated only on the
incoming record is populated in a concrete `merge_plan_data` result. -/
theorem C6_merge_population_witness :
    (pyGetD (merge_plan_data [("title", pvs "Plan")]
        [("title", pvs "Other"), ("status", pvs "ok")]) "status" pvnone).truthy = true :=
  (C6_merge_population [("title", pvs "Plan")]
      [("title", pvs "Other"), ("status", pvs "ok")] (by decide)).1
    "status" (by decide) (by decide) (Or.inr (by decide))

/-- C7 counterexample: on a record missing all of identifier, title and
municipality, `generate_plan_key` does not fall back to a `general_` hash
bucket — it returns the defaulted municipality `'unknown'`, which does not
even contain `'general_'`. -/
theorem C7_plan_key_no_hash_fallback :
    pyGet ([("x", PyVal.atom (PyAtom.int 1))] : PyDict) "plan_id" = Option.none
  ∧ pyGet ([("x", PyVal.atom (PyAtom.int 1))] : PyDict) "title" = Option.none
  ∧ pyGet ([("x", PyVal.atom (PyAtom.int 1))] : PyDict) "municipality" = Option.none
  ∧ generate_plan_key [("x", PyVal.atom (PyAtom.int 1))] = some "unknown"
  ∧ pyInStr "unknown" "general_" = false := by
  refine ⟨by decide, by decide, by decide, by decide, by decide⟩

/-- C7 amended: on records missing identifier, title and municipality,
`generate_oslo_key` falls back to `'oslo_general_' + hash(str(item)) % 1000`
and never raises, while `generate_plan_key` instead returns `'unknown'` (the
defaulted municipality); and the hash bucket is not guaranteed isolated —
two distinct such records can share it (the hash is taken mod 1000). -/
theorem C7_missing_fields_keys (d : PyDict)
    (hp : pyGet d "plan_id" = Option.none) (ht : pyGet d "title" = Option.none)
    (hm : pyGet d "municipality" = Option.none) :
    generate_plan_key d = some "unknown"
  ∧ (∀ h : HashFns, generate_oslo_key h d
      = some ("oslo_general_" ++ toString (h.hd d % 1000)))
  ∧ [("x", PyVal.atom (PyAtom.int 1))] ≠ ([("y", PyVal.atom (PyAtom.int 2))] : PyDict)
  ∧ generate_oslo_key ⟨fun _ => 0, fun _ => 0⟩ [("x", PyVal.atom (PyAtom.int 1))]
      = generate_oslo_key ⟨fun _ => 0, fun _ => 0⟩ [("y", PyVal.atom (PyAtom.int 2))] := by
  refine ⟨?_, ?_, by decide, by decide⟩
  · simp only [generate_plan_key, pyGetD, hp, ht, hm, Option.getD_none]
    decide
  · intro h
    simp [generate_oslo_key, pyGetD, hp, ht, pyLowerVal, pvs, PyVal.truthy,
      PyAtom.truthy, pyLower]

/-- Witness for `C7_missing_fields_keys` at a concrete record with none of
the three fields. -/
theorem C7_missing_fields_keys_witness :
    generate_plan_key [("x", PyVal.atom (PyAtom.int 1))] = some "unknown" :=
  (C7_missing_fields_keys [("x", PyVal.atom (PyAtom.int 1))]
    (by decide) (by decide) (by decide)).1

/-! Lemmas about the heap embedding. -/

theorem hGet_hSet_self (d : HDict) (k : String) (v : HVal) :
    hGet (hSet d k v) k = some v := by
  induction d with
  | nil => simp [hSet, hGet]
  | cons hd t ih =>
    obtain ⟨k₁, v₁⟩ := hd
    by_cases h : k₁ = k
    · subst h; simp [hSet, hGet]
    · simp [hSet, hGet, h, ih]

theorem hGet_hSet_other (d : HDict) (k k' : String) (v : HVal) (h : k' ≠ k) :
    hGet (hSet d k v) k' = hGet d k' := by
  have hkk : ¬(k = k') := fun hh => h hh.symm
  induction d with
  | nil => simp [hSet, hGet, hkk]
  | cons hd t ih =>
    obtain ⟨k₁, v₁⟩ := hd
    by_cases h₁ : k₁ = k
    · subst h₁
      simp [hSet, hGet, hkk]
    · by_cases h₂ : k₁ = k'
      · subst h₂; simp [hSet, hGet, h₁]
      · simp [hSet, hGet, h₁, h₂, ih]

theorem storeGet_append_lt (st : Store) (l : List PyAtom) (i : Nat) (h : i < st.length) :
    storeGet (st ++ [l]) i = storeGet st i := by
  unfold storeGet
  rw [List.getElem?_append_left h]

theorem storeGet_set_self (st : Store) (i : Nat) (l : List PyAtom) (h : i < st.length) :
    storeGet (storeSet st i l) i = l := by
  unfold storeGet storeSet
  rw [List.getElem?_set_eq_of_lt l h]
  rfl

theorem storeGet_set_other (st : Store) (i j : Nat) (l : List PyAtom) (h : j ≠ i) :
    storeGet (storeSet st i l) j = storeGet st j := by
  unfold storeGet storeSet
  rw [List.getElem?_set_ne (fun hh => h hh.symm)]

theorem hOsloSourcesStep_fresh (st : Store) (e n : HDict)
    (hso : hHasKey e "oslo_sources" = false) :
    (hOsloSourcesStep st e n).2 = hSet e "oslo_sources" (HVal.ref st.length)
  ∧ (hOsloSourcesStep st e n).1.length = st.length + 1
  ∧ ∀ i, i < st.length → storeGet (hOsloSourcesStep st e n).1 i = storeGet st i := by
  have hgd : hGetD (hSet e "oslo_sources" (HVal.ref (List.length st))) "oslo_sources"
      (HVal.atom PyAtom.anone) = HVal.ref st.length := by
    unfold hGetD
    rw [hGet_hSet_self]
    rfl
  unfold hOsloSourcesStep
  simp only [hso, Bool.false_eq_true, if_false, hgd]
  split
  · exact ⟨rfl, by simp, fun i hi => storeGet_append_lt st _ i hi⟩
  · refine ⟨rfl, by simp [storeSet], ?_⟩
    intro i hi
    rw [storeGet_set_other _ _ _ _ (by omega)]
    exact storeGet_append_lt st _ i hi

/-- C10: `merge_oslo_data` starts from a shallow copy, so when both records
populate `oslo_areas` the `extend` writes the concatenation into the list
object `existing` itself references: after the call the caller's `existing`
record reads the concatenated list (mutated in place), and since the merge
reads the extension out of the store before writing, merging a record with
itself doubles the list, as the witness instance shows. -/
theorem C10_merge_oslo_mutates_existing (st : Store) (e n : HDict) (i j : Nat)
    (hi : i < st.length) (hj : j < st.length)
    (hso : hHasKey e "oslo_sources" = false)
    (hei : hGet e "oslo_areas" = some (HVal.ref i))
    (hnj : hGet n "oslo_areas" = some (HVal.ref j))
    (hjne : storeGet st j ≠ [])
    (hterms : hGet n "oslo_terms" = Option.none)
    (hscore : hGet n "oslo_relevance_score" = Option.none) :
    hReadList (merge_oslo_data_heap st e n).1 e "oslo_areas"
        = storeGet st i ++ storeGet st j
  ∧ hReadList (merge_oslo_data_heap st e n).1 e "oslo_areas"
        ≠ hReadList st e "oslo_areas" := by
  obtain ⟨hm1, hlen1, hpres1⟩ := hOsloSourcesStep_fresh st e n hso
  set st₁ := (hOsloSourcesStep st e n).1 with hst₁
  set M₁ := (hOsloSourcesStep st e n).2 with hM₁
  have hM₁areas : hGet M₁ "oslo_areas" = some (HVal.ref i) := by
    rw [hm1, hGet_hSet_other _ _ _ _ (by decide)]
    exact hei
  have htr : hTruthy st₁ (HVal.ref j) = true := by
    simp only [hTruthy]
    rw [hpres1 j hj]
    simpa using hjne
  have hstep2 : hOsloMergeField (st₁, M₁) n "oslo_areas"
      = (storeSet st₁ i (storeGet st₁ i ++ storeGet st₁ j), M₁) := by
    unfold hOsloMergeField
    simp only [hnj, hM₁areas, htr, if_true]
  have h3 : ∀ stm : Store × HDict, hOsloMergeField stm n "oslo_terms" = stm := by
    intro stm
    unfold hOsloMergeField
    rw [hterms]
  have h4 : ∀ stm : Store × HDict, hOsloMergeField stm n "oslo_relevance_score" = stm := by
    intro stm
    unfold hOsloMergeField
    rw [hscore]
  have hpair : hOsloSourcesStep st e n = (st₁, M₁) := rfl
  have hfin : merge_oslo_data_heap st e n
      = (storeSet st₁ i (storeGet st₁ i ++ storeGet st₁ j), M₁) := by
    show hOsloMergeField (hOsloMergeField (hOsloMergeField (hOsloSourcesStep st e n)
        n "oslo_areas") n "oslo_terms") n "oslo_relevance_score" = _
    rw [hpair, hstep2, h3, h4]
  have hilt : i < st₁.length := by omega
  have hread : hReadList (merge_oslo_data_heap st e n).1 e "oslo_areas"
      = storeGet st i ++ storeGet st j := by
    simp only [hReadList, hei, hfin]
    rw [storeGet_set_self _ _ _ hilt, hpres1 i hi, hpres1 j hj]
  have hreadst : hReadList st e "oslo_areas" = storeGet st i := by
    simp only [hReadList, hei]
  refine ⟨hread, ?_⟩
  rw [hread, hreadst]
  intro hc
  have hlc := congrArg List.length hc
  rw [List.length_append] at hlc
  have hz : (storeGet st j).length = 0 := by omega
  exact hjne (List.length_eq_zero.mp hz)

/-- Witness for `C10_merge_oslo_mutates_existing`: the self-merge instance,
doubling the single-element `oslo_areas` list the record references. -/
theorem C10_merge_oslo_mutates_existing_witness :
    hReadList (merge_oslo_data_heap [[PyAtom.str "a"]]
        [("source", HVal.atom (PyAtom.str "s")), ("oslo_areas", HVal.ref 0)]
        [("source", HVal.atom (PyAtom.str "s")), ("oslo_areas", HVal.ref 0)]).1
      [("source", HVal.atom (PyAtom.str "s")), ("oslo_areas", HVal.ref 0)] "oslo_areas"
      = storeGet [[PyAtom.str "a"]] 0 ++ storeGet [[PyAtom.str "a"]] 0 :=
  (C10_merge_oslo_mutates_existing [[PyAtom.str "a"]] _ _ 0 0 (by decide) (by decide)
    (by decide) (by decide) (by decide) (by decide) (by decide) (by decide)).1

/-- C8 counterexample: the Oslo cross-reference pass depends on the run's
string hash.  On the same two title-only records, the hash function mapping
both titles to the same value merges them into one unified record, while a
hash separating them yields two — so two executions differing only in the
(Python-randomized) hash seed produce different `unified_records`. -/
theorem C8_oslo_cross_reference_hash_dependent :
    cross_reference_oslo_data ⟨fun _ => 0, fun _ => 0⟩ []
        [[("title", pvs "plan sentrum one")], [("title", pvs "plan sentrum two")]] []
      ≠ cross_reference_oslo_data
          ⟨fun s => if s = "plan sentrum one" then 0 else 1, fun _ => 0⟩ []
          [[("title", pvs "plan sentrum one")], [("title", pvs "plan sentrum two")]] [] := by
  intro hc
  have h := congrArg (Option.map OsloCrossRefResult.total_oslo_items) hc
  rw [show (cross_reference_oslo_data ⟨fun _ => 0, fun _ => 0⟩ []
      [[("title", pvs "plan sentrum one")], [("title", pvs "plan sentrum two")]] []).map
      OsloCrossRefResult.total_oslo_items = some 1 from by decide] at h
  rw [show (cross_reference_oslo_data
      ⟨fun s => if s = "plan sentrum one" then 0 else 1, fun _ => 0⟩ []
      [[("title", pvs "plan sentrum one")], [("title", pvs "plan sentrum two")]] []).map
      OsloCrossRefResult.total_oslo_items = some 2 from by decide] at h
  simp at h

/-- C8 amended: the integrated pass `cross_reference_data` is a pure
function of its input batches — in particular it never consults the run's
hash function, so any two executions on the same input agree; the Oslo pass
`cross_reference_oslo_data` does consult the hash (via `generate_oslo_key`)
and is only deterministic for a fixed hash function. -/
theorem C8_cross_reference_deterministic (h₁ h₂ : HashFns)
    (plans pdfs origo reg opdfs : List PyDict) :
    cross_reference_data h₁ plans pdfs = cross_reference_data h₂ plans pdfs
  ∧ cross_reference_oslo_data h₁ origo reg opdfs
      = cross_reference_oslo_data h₁ origo reg opdfs := ⟨rfl, rfl⟩

/-- A record whose `oslo_areas` value, when present, is a list of area names
drawn from the static `osloOmrader` list — the shape the
municipality-relevance classifier `analyze_oslo_content` produces. -/
def AreasFromClassifier (r : PyDict) : Prop :=
  ∀ v, pyGet r "oslo_areas" = some v →
    ∃ l, v = PyVal.list l ∧ ∀ a ∈ l, ∃ s, a = PyAtom.str s ∧ s ∈ osloOmrader

theorem collectAreas_subset (items : List PyDict)
    (hsub : ∀ r ∈ items, AreasFromClassifier r) :
    collectAreas items ⊆ (osloOmrader.map PyAtom.str).toFinset := by
  have main : ∀ (its : List PyDict) (acc : Finset PyAtom),
      (∀ r ∈ its, AreasFromClassifier r) →
      acc ⊆ (osloOmrader.map PyAtom.str).toFinset →
      its.foldl (fun acc item =>
        match pyGet item "oslo_areas" with
        | some (PyVal.list l) => acc ∪ l.toFinset
        | some (PyVal.atom (PyAtom.str s)) =>
            acc ∪ (s.data.map (fun c => PyAtom.str (String.mk [c]))).toFinset
        | _ => acc) acc ⊆ (osloOmrader.map PyAtom.str).toFinset := by
    intro its
    induction its with
    | nil =>
      intro acc _ hacc
      exact hacc
    | cons r t ih =>
      intro acc hall hacc
      simp only [List.foldl_cons]
      apply ih _ (fun r' hr' => hall r' (List.mem_cons_of_mem _ hr'))
      cases hv : pyGet r "oslo_areas" with
      | none => simpa [hv] using hacc
      | some v =>
        obtain ⟨l, rfl, hl⟩ := hall r (List.mem_cons_self r t) v hv
        simp only [hv]
        apply Finset.union_subset hacc
        intro a ha
        rw [List.mem_toFinset] at ha
        obtain ⟨s, rfl, hs⟩ := hl a ha
        rw [List.mem_toFinset]
        exact List.mem_map_of_mem _ hs
  have hc : collectAreas items = items.foldl (fun acc item =>
      match pyGet item "oslo_areas" with
      | some (PyVal.list l) => acc ∪ l.toFinset
      | some (PyVal.atom (PyAtom.str s)) =>
          acc ∪ (s.data.map (fun c => PyAtom.str (String.mk [c]))).toFinset
      | _ => acc) ∅ := rfl
  rw [hc]
  exact main items ∅ hsub (Finset.empty_subset _)

/-- C9: for any unified collection whose `oslo_areas` lists come from the
classifier over the static area list, the coverage summary counts at most
`total_oslo_areas` covered areas, its percentage is at most 100, and the
classifier indeed only emits areas from the static list. -/
theorem C9_coverage_invariant (items : List PyDict)
    (hsub : ∀ r ∈ items, AreasFromClassifier r) :
    (assess_oslo_coverage items).covered_oslo_areas
        ≤ (assess_oslo_coverage items).total_oslo_areas
  ∧ (assess_oslo_coverage items).coverage_percentage ≤ 100
  ∧ (∀ text, AreasFromClassifier (analyze_oslo_content_core text)) := by
  have hcard : (collectAreas items).card ≤ osloOmrader.length := by
    calc (collectAreas items).card
        ≤ ((osloOmrader.map PyAtom.str).toFinset).card :=
          Finset.card_le_card (collectAreas_subset items hsub)
      _ ≤ (osloOmrader.map PyAtom.str).length := List.toFinset_card_le _
      _ = osloOmrader.length := List.length_map _ _
  refine ⟨hcard, ?_, ?_⟩
  · show ((collectAreas items).card : Rat) / ((osloOmrader.length : Nat) : Rat) * 100 ≤ 100
    have hlen : osloOmrader.length = 16 := rfl
    rw [hlen] at hcard ⊢
    have hcq : ((collectAreas items).card : Rat) ≤ 16 := by exact_mod_cast hcard
    rw [div_mul_eq_mul_div]
    rw [div_le_iff₀ (by norm_num)]
    push_cast
    nlinarith [hcq]
  · intro text v hv
    have hget : pyGet (analyze_oslo_content_core text) "oslo_areas"
        = some (PyVal.list ((analyzeFoundAreas text).map PyAtom.str)) := by
      simp [analyze_oslo_content_core, pyGet]
    rw [hget] at hv
    refine ⟨(analyzeFoundAreas text).map PyAtom.str, (Option.some.inj hv).symm, ?_⟩
    intro a ha
    rw [List.mem_map] at ha
    obtain ⟨s, hs, rfl⟩ := ha
    refine ⟨s, rfl, ?_⟩
    simp only [analyzeFoundAreas] at hs
    exact List.mem_of_mem_filter hs

/-- Witness for `C9_coverage_invariant` on a singleton collection produced
by the classifier itself. -/
theorem C9_coverage_invariant_witness :
    (assess_oslo_coverage [analyze_oslo_content_core "sentrum plan"]).covered_oslo_areas
      ≤ (assess_oslo_coverage [analyze_oslo_content_core "sentrum plan"]).total_oslo_areas := by
  have hclass := (C9_coverage_invariant [] (by intro r hr; simp at hr)).2.2
  exact (C9_coverage_invariant _ (by
    intro r hr
    rw [List.mem_singleton] at hr
    subst hr
    exact hclass "sentrum plan")).1
